import Mathlib

/-!
# Staking handler (`modules/stake/handler.go`)

A shallow embedding of the two-phase staking pipeline `CheckTx` / `DeliverTx`
and of the per-kind `check.*` and `deliver.*` handlers.

* `*big.Int` values are `Int`; a nil `*big.Int` (failed `SetString`) is `none`.
* A Go function returning `error` returns `GoError`, with `none` for `nil`.
* Handlers run in `M = StateT State Option`: the state holds the candidate and
  delegation ledgers, the history log, the account balances and the stored
  parameters; the outer `none` is a run-time panic (nil dereference).
* `math/big.Float` arithmetic, `ValidateBasic`, the clock and the package
  constant `DefaultHoldAccount` are parameters, collected in `Env`.
-/

namespace Stake

/-- An account address (`common.Address`); `0` is the all-zero address. -/
abbrev Address := Nat

/-- The error values the handler can return. -/
inductive Err where
  | missingSignature
  | unknownTxType
  | invalidTx (code : Nat)
  | addressDeclared
  | pubkeyDeclared
  | editNonExistent
  | withdrawNonExistent
  | verifyNonExistent
  | verificationDisallowed
  | verifiedAlready
  | noCandidateForAddress
  | badAmount
  | insufficientFunds
  | reachMaxAmount
  | badValidatorAddr
  | delegationNotExists
  | candidateExistsAddr
  | notInteger
  | unknownKey
  | readingValidators
  deriving DecidableEq, Repr

/-- A Go `error` value: `none` is `nil`. -/
abbrev GoError := Option Err

structure Candidate where
  PubKey : String
  OwnerAddress : Address
  Shares : Int
  VotingPower : Int
  MaxShares : Int
  Cut : Int
  Description : String
  Verified : String
  CreatedAt : Nat
  UpdatedAt : Nat
  deriving DecidableEq, Repr

structure Delegation where
  DelegatorAddress : Address
  CandidateAddress : Address
  Shares : Int
  CreatedAt : Nat
  UpdatedAt : Nat
  deriving DecidableEq, Repr

structure DelegateHistory where
  Id : Int
  DelegatorAddress : Address
  CandidateAddress : Address
  Shares : Int
  OpCode : String
  CreatedAt : Nat
  deriving DecidableEq, Repr

structure Params where
  ReserveRequirementRatio : String
  MaxVals : Nat
  HoldAccount : Address
  deriving DecidableEq, Repr

/-- The store and the account ledger the handler reads and writes. -/
structure State where
  candidates : List Candidate
  delegations : List Delegation
  history : List DelegateHistory
  balances : List (Address × Int)
  params : Params
  deriving DecidableEq, Repr

structure TxDeclareCandidacy where
  PubKey : String
  MaxAmount : String
  Cut : Int
  Description : String
  deriving DecidableEq, Repr

structure TxUpdateCandidacy where
  NewAddress : Address
  MaxAmount : String
  Cut : Int
  Description : String
  deriving DecidableEq, Repr

structure TxVerifyCandidacy where
  CandidateAddress : Address
  Verified : Bool
  deriving DecidableEq, Repr

structure TxDelegate where
  ValidatorAddress : Address
  Amount : String
  deriving DecidableEq, Repr

structure TxWithdraw where
  ValidatorAddress : Address
  deriving DecidableEq, Repr

/-- The payload of an `sdk.Tx`, by concrete type; `other` is any payload that
is not one of the six staking kinds. -/
inductive Tx where
  | declareCandidacy (t : TxDeclareCandidacy)
  | updateCandidacy (t : TxUpdateCandidacy)
  | withdrawCandidacy
  | verifyCandidacy (t : TxVerifyCandidacy)
  | delegate (t : TxDelegate)
  | withdraw (t : TxWithdraw)
  | other
  deriving DecidableEq, Repr

/-- A genesis validator, as decoded from the `validator` value of `InitState`. -/
structure genesisValidator where
  PubKey : String
  Power : Int
  Address : Address
  MaxAmount : Int
  Cut : Int
  deriving DecidableEq, Repr

/-- The part of `types.Context` the handler uses: the signer list. -/
structure Context where
  signers : List Address

/-- What the handler takes from outside this file: `tx.ValidateBasic()`, the
`math/big.Float` product and quotient of two decimal strings printed with
`String()` (`none` when an operand fails to parse, which is a nil dereference
in the caller), `utils.GetNow()`, the constant `DefaultHoldAccount`, and the
JSON decoder `data.FromJSON` at type `genesisValidator` (`none` when it fails). -/
structure Env where
  validateBasic : Tx → GoError
  floatMulString : String → String → Option String
  floatQuoString : String → String → Option String
  now : Nat
  DefaultHoldAccount : Address
  fromJSON : String → Option genesisValidator

/-- Handlers: state passing, with `none` for a panic. -/
abbrev M := StateT State Option

/-- A run-time panic (nil pointer dereference). -/
def goPanic {α : Type} : M α := fun _ => none

/-! ## `math/big.Int` -/

/-- Digits of a base-10 numeral, most significant first, onto an accumulator. -/
def scanDigits : List Char → Nat → Option Nat
  | [], acc => some acc
  | c :: cs, acc =>
    if c.isDigit then scanDigits cs (acc * 10 + (c.toNat - 48)) else none

/-- The unsigned part of `SetString(s, 10)`: at least one digit, digits only. -/
def scanNat (cs : List Char) : Option Nat :=
  match cs with
  | [] => none
  | _ :: _ => scanDigits cs 0

/-- `new(big.Int).SetString(s, 10)`: an optional sign, then one or more decimal
digits, and nothing else; `none` is the failed parse (`ok = false`, nil result). -/
def bigIntSetString (s : String) : Option Int :=
  match s.toList with
  | '-' :: ds => (scanNat ds).map (fun n => - (n : Int))
  | '+' :: ds => (scanNat ds).map (fun n => (n : Int))
  | ds => (scanNat ds).map (fun n => (n : Int))

/-- `strconv.Atoi`: the same numerals as `SetString(s, 10)`, within the range
of a 64-bit `int`. -/
def strconvAtoi (s : String) : Option Int :=
  match bigIntSetString s with
  | none => none
  | some i => if -(2 ^ 63) ≤ i ∧ i < 2 ^ 63 then some i else none

/-- The conversion `uint16(i)` of an `int`: the low 16 bits. -/
def uint16 (i : Int) : Nat := (i % 65536).toNat

/-- `(*big.Int).String()`: the decimal numeral. -/
def bigIntString (x : Int) : String := toString x

/-! ## Ledgers -/

/-- Modelled from the spec: the candidate ledger's lookup by owner address
(`GetCandidateByAddress`, in the store layer that is not part of this file). -/
def GetCandidateByAddress (a : Address) : M (Option Candidate) := fun s =>
  some (s.candidates.find? (fun c => decide (c.OwnerAddress = a)), s)

/-- Modelled from the spec: the candidate ledger's lookup by public key
(`GetCandidateByPubKey`). -/
def GetCandidateByPubKey (k : String) : M (Option Candidate) := fun s =>
  some (s.candidates.find? (fun c => decide (c.PubKey = k)), s)

/-- Modelled from the spec: the candidate ledger's insert (`SaveCandidate`). -/
def SaveCandidate (c : Candidate) : M Unit := fun s =>
  some ((), { s with candidates := s.candidates ++ [c] })

/-- Modelled from the spec: the candidate ledger's update (`updateCandidate`);
the record is identified by its public key, the immutable identity key, and a
record that is not in the ledger is not created. -/
def updateCandidate (c : Candidate) : M Unit := fun s =>
  let cs := s.candidates.map (fun x => if x.PubKey = c.PubKey then c else x)
  some ((), { s with candidates := cs })

/-- Modelled from the spec: the candidate ledger's remove (`removeCandidate`),
by public key. -/
def removeCandidate (c : Candidate) : M Unit := fun s =>
  let cs := s.candidates.filter (fun x => decide (x.PubKey ≠ c.PubKey))
  some ((), { s with candidates := cs })

/-- The composite key of a delegation matches `(delegator, candidate)`. -/
def Delegation.hasKey (d : Delegation) (delegator candidate : Address) : Bool :=
  decide (d.DelegatorAddress = delegator) && decide (d.CandidateAddress = candidate)

/-- Modelled from the spec: the delegation ledger's lookup by
(delegator, candidate) (`GetDelegation`). -/
def GetDelegation (delegator candidate : Address) : M (Option Delegation) := fun s =>
  some (s.delegations.find? (fun d => d.hasKey delegator candidate), s)

/-- Modelled from the spec: the delegation ledger's insert (`SaveDelegation`). -/
def SaveDelegation (d : Delegation) : M Unit := fun s =>
  some ((), { s with delegations := s.delegations ++ [d] })

/-- Modelled from the spec: the delegation ledger's update (`UpdateDelegation`),
by composite key. -/
def UpdateDelegation (d : Delegation) : M Unit := fun s =>
  let ds := s.delegations.map
    (fun x => if x.hasKey d.DelegatorAddress d.CandidateAddress then d else x)
  some ((), { s with delegations := ds })

/-- Modelled from the spec: the delegation ledger's remove (`RemoveDelegation`),
by composite key. -/
def RemoveDelegation (d : Delegation) : M Unit := fun s =>
  let ds := s.delegations.filter
    (fun x => !x.hasKey d.DelegatorAddress d.CandidateAddress)
  some ((), { s with delegations := ds })

/-- Modelled from the spec: enumeration of all delegations for a candidate
(`GetDelegationsByCandidate`). -/
def GetDelegationsByCandidate (candidate : Address) : M (List Delegation) := fun s =>
  some (s.delegations.filter (fun d => decide (d.CandidateAddress = candidate)), s)

/-- Modelled from the spec: the history log's append (`saveDelegateHistory`). -/
def saveDelegateHistory (h : DelegateHistory) : M Unit := fun s =>
  some ((), { s with history := s.history ++ [h] })

/-- Modelled from the spec: the parameter store's `load()` (`loadParams`). -/
def loadParams : M Params := fun s => some (s.params, s)

/-- Modelled from the spec: the parameter store's `save(Params)` (`saveParams`). -/
def saveParams (p : Params) : M Unit := fun s => some ((), { s with params := p })

/-- The balance recorded for an account; an account without an entry holds 0. -/
def balanceOf (bs : List (Address × Int)) (a : Address) : Int :=
  match bs.find? (fun p => decide (p.1 = a)) with
  | some p => p.2
  | none => 0

/-- Modelled from the spec: the external balance oracle
`getBalance(address) → integer` (`commons.GetBalance`); the read succeeds. -/
def GetBalance (a : Address) : M (Int × GoError) := fun s =>
  some ((balanceOf s.balances a, none), s)

/-- Modelled from the spec: the external transfer primitive
`transfer(from, to, amount) → success | InsufficientFunds`, atomic per call
(`commons.Transfer`). -/
def Transfer (src dst : Address) (amount : Int) : M GoError := fun s =>
  if balanceOf s.balances src < amount then some (some Err.insufficientFunds, s)
  else
    let b1 := (src, balanceOf s.balances src - amount) :: s.balances
    let b2 := (dst, balanceOf b1 dst + amount) :: b1
    some (none, { s with balances := b2 })

/-- Modelled from the spec: the candidate constructor (`NewCandidate`), which
stamps both timestamps with the current time. -/
def NewCandidate (now : Nat) (pubKey : String) (owner : Address) (shares : Int)
    (votingPower : Int) (maxShares : Int) (cut : Int) (description : String)
    (verified : String) : Candidate :=
  { PubKey := pubKey, OwnerAddress := owner, Shares := shares,
    VotingPower := votingPower, MaxShares := maxShares, Cut := cut,
    Description := description, Verified := verified,
    CreatedAt := now, UpdatedAt := now }

/-- The constant `foundationAddress = "0x"` under `common.HexToAddress`: the
hex string has no digits, so the address is all zero. -/
def foundationAddress : Address := 0

/-! ## Genesis: `InitState` -/

def setValidator (env : Env) (value : String) : M GoError := do
  match env.fromJSON value with
  | none => pure (some Err.readingValidators)
  | some val =>
    if val.Address = 0 then pure (some Err.badValidatorAddr)
    else
      -- create and save the empty candidate
      match ← GetCandidateByAddress val.Address with
      | some _ => pure (some Err.candidateExistsAddr)
      | none =>
        let shares := val.Power * 10 ^ 18
        let maxShares := val.MaxAmount * 10 ^ 18
        SaveCandidate
          (NewCandidate env.now val.PubKey val.Address shares val.Power maxShares val.Cut
            "" "N")
        pure none

/-- `InitState`: set genesis parameters for staking; the value returned by
`setValidator` is not looked at. -/
def InitState (env : Env) (key value : String) : M GoError := do
  let params ← loadParams
  if key = "reserve_requirement_ratio" then
    saveParams { params with ReserveRequirementRatio := value }
    pure none
  else if key = "max_vals" then
    match strconvAtoi value with
    | none => pure (some Err.notInteger)
    | some i =>
      saveParams { params with MaxVals := uint16 i }
      pure none
  else if key = "validator" then
    let _ ← setValidator env value
    saveParams params
    pure none
  else pure (some Err.unknownKey)

/-! ## Admission: `check` -/

/-- The receiver of the admission handlers; the store and the ledger handle
are the state of `M`. -/
structure check where
  sender : Address
  params : Params

/-- The receiver of the delivery handlers. -/
structure deliver where
  sender : Address
  params : Params

/-- `getTxSender`: exactly one signer is required. -/
def getTxSender (ctx : Context) : Address × GoError :=
  match ctx.signers with
  | [a] => (a, none)
  | _ => (0, some Err.missingSignature)

def check.delegate (c : check) (tx : TxDelegate) : M GoError := do
  match ← GetCandidateByAddress tx.ValidatorAddress with
  | none => pure (some Err.noCandidateForAddress)
  | some candidate =>
    -- check if the delegator has sufficient funds
    let (balance, err) ← GetBalance c.sender
    match err with
    | some e => pure (some e)
    | none =>
      match bigIntSetString tx.Amount with
      | none => pure (some Err.badAmount)
      | some amount =>
        if balance < amount then pure (some Err.insufficientFunds)
        -- has the validator reached its declared max amount
        else if candidate.Shares + amount > candidate.MaxShares then
          pure (some Err.reachMaxAmount)
        else pure none

def check.declareCandidacy (env : Env) (c : check) (tx : TxDeclareCandidacy) :
    M GoError := do
  match ← GetCandidateByAddress c.sender with
  | some _ => pure (some Err.addressDeclared)
  | none =>
    match ← GetCandidateByPubKey tx.PubKey with
    | some _ => pure (some Err.pubkeyDeclared)
    | none =>
      -- z.Mul(x, y) on the parsed MaxAmount and ratio, then z.String()
      match env.floatMulString tx.MaxAmount c.params.ReserveRequirementRatio with
      | none => goPanic
      | some z => c.delegate { ValidatorAddress := c.sender, Amount := z }

def check.updateCandidacy (env : Env) (c : check) (tx : TxUpdateCandidacy) :
    M GoError := do
  match ← GetCandidateByAddress c.sender with
  | none => pure (some Err.editNonExistent)
  | some _ =>
    if tx.MaxAmount ≠ "" then
      -- rr.Quo(x, y) on the parsed MaxAmount and ratio
      match env.floatQuoString tx.MaxAmount c.params.ReserveRequirementRatio with
      | none => goPanic
      | some rr =>
        let (balance, err) ← GetBalance c.sender
        match err with
        | some e => pure (some e)
        | none =>
          -- tmp, _ := new(big.Int).SetString(rr.String(), 10); balance.Cmp(tmp)
          match bigIntSetString rr with
          | none => goPanic
          | some tmp =>
            if balance < tmp then pure (some Err.insufficientFunds) else pure none
    else pure none

def check.withdrawCandidacy (c : check) : M GoError := do
  match ← GetCandidateByAddress c.sender with
  | none => pure (some Err.withdrawNonExistent)
  | some _ => pure none

def check.verifyCandidacy (c : check) (tx : TxVerifyCandidacy) : M GoError := do
  match ← GetCandidateByAddress tx.CandidateAddress with
  | none => pure (some Err.verifyNonExistent)
  | some candidate =>
    if c.sender ≠ foundationAddress then pure (some Err.verificationDisallowed)
    else if candidate.Verified = "Y" then pure (some Err.verifiedAlready)
    else pure none

def check.withdraw (c : check) (tx : TxWithdraw) : M GoError := do
  match ← GetCandidateByAddress tx.ValidatorAddress with
  | none => pure (some Err.badValidatorAddr)
  | some _ =>
    match ← GetDelegation c.sender tx.ValidatorAddress with
    | none => pure (some Err.delegationNotExists)
    | some _ => pure none

/-- `CheckTx`: `ValidateBasic`, the signer check, then dispatch on the payload. -/
def CheckTx (env : Env) (ctx : Context) (tx : Tx) : M GoError := do
  match env.validateBasic tx with
  | some e => pure (some e)
  | none =>
    match getTxSender ctx with
    | (_, some e) => pure (some e)
    | (sender, none) =>
      let params ← loadParams
      let checker : check := { sender := sender, params := params }
      match tx with
      | .declareCandidacy t => checker.declareCandidacy env t
      | .updateCandidacy t => checker.updateCandidacy env t
      | .withdrawCandidacy => checker.withdrawCandidacy
      | .verifyCandidacy t => checker.verifyCandidacy t
      | .delegate t => checker.delegate t
      | .withdraw t => checker.withdraw t
      | .other => pure (some Err.unknownTxType)

/-! ## Delivery: `deliver` -/

def deliver.delegate (env : Env) (d : deliver) (tx : TxDelegate) : M GoError := do
  let candidate ← GetCandidateByAddress tx.ValidatorAddress
  match bigIntSetString tx.Amount with
  | none => pure (some Err.badAmount)
  | some shares =>
    -- move coins from the delegator account to the hold account
    match ← Transfer d.sender d.params.HoldAccount shares with
    | some e => pure (some e)
    | none =>
      -- create or update delegation
      let now := env.now
      match ← GetDelegation d.sender tx.ValidatorAddress with
      | none =>
        SaveDelegation
          { DelegatorAddress := d.sender, CandidateAddress := tx.ValidatorAddress,
            Shares := shares, CreatedAt := now, UpdatedAt := now }
      | some delegation =>
        UpdateDelegation
          { delegation with Shares := delegation.Shares + shares, UpdatedAt := now }
      -- add shares to candidate: a nil candidate is dereferenced here
      match candidate with
      | none => goPanic
      | some candidate =>
        let candidate := { candidate with Shares := candidate.Shares + shares }
        updateCandidate candidate
        saveDelegateHistory
          { Id := 0, DelegatorAddress := d.sender, CandidateAddress := tx.ValidatorAddress,
            Shares := shares, OpCode := "delegate", CreatedAt := now }
        pure none

def deliver.declareCandidacy (env : Env) (d : deliver) (tx : TxDeclareCandidacy) :
    M GoError := do
  match bigIntSetString tx.MaxAmount with
  | none => pure (some Err.badAmount)
  | some maxAmount =>
    SaveCandidate
      (NewCandidate env.now tx.PubKey d.sender 0 0 maxAmount tx.Cut tx.Description "N")
    -- delegate a part of the max staked amount
    match env.floatMulString tx.MaxAmount d.params.ReserveRequirementRatio with
    | none => goPanic
    | some z => d.delegate env { ValidatorAddress := d.sender, Amount := z }

def deliver.updateCandidacy (env : Env) (d : deliver) (tx : TxUpdateCandidacy) :
    M GoError := do
  match ← GetCandidateByAddress d.sender with
  | none => pure (some Err.noCandidateForAddress)
  | some candidate =>
    -- maxAmount, _ := new(big.Int).SetString(tx.MaxAmount, 10); a nil maxAmount
    -- is dereferenced by candidate.MaxShares.Cmp(maxAmount)
    match bigIntSetString tx.MaxAmount with
    | none => goPanic
    | some maxAmount =>
      let candidate ←
        if candidate.MaxShares ≠ maxAmount then do
          -- diff := tmp.Sub(candidate.MaxShares, maxAmount): diff and tmp are
          -- the same big.Int
          let tmp := candidate.MaxShares - maxAmount
          let diff := tmp
          match env.floatMulString (bigIntString diff) d.params.ReserveRequirementRatio with
          | none => goPanic
          | some z =>
            -- amount, _ := new(big.Int).SetString(z.String(), 10); a nil amount
            -- is dereferenced at the latest by shares.Add(candidate.Shares, amount)
            match bigIntSetString z with
            | none => goPanic
            | some amount =>
              -- the error returned by Transfer is dropped
              let _ ←
                if diff > 0 then Transfer d.sender env.DefaultHoldAccount amount
                else Transfer env.DefaultHoldAccount d.sender amount
              -- candidate.MaxShares = maxAmount; candidate.Shares = tmp
              pure { candidate with MaxShares := maxAmount, Shares := tmp }
        else pure candidate
      updateCandidate
        { candidate with OwnerAddress := tx.NewAddress, Verified := "N", UpdatedAt := env.now }
      pure none

/-- The loop of `deliver.withdrawCandidacy` over the candidate's delegations:
refund, then remove, stopping at the first failed transfer. -/
def deliver.withdrawCandidacy.loop (hold : Address) : List Delegation → M GoError
  | [] => pure none
  | delegation :: rest => do
    match ← Transfer hold delegation.DelegatorAddress delegation.Shares with
    | some e => pure (some e)
    | none =>
      RemoveDelegation delegation
      deliver.withdrawCandidacy.loop hold rest

def deliver.withdrawCandidacy (d : deliver) : M GoError := do
  match ← GetCandidateByAddress d.sender with
  | none => pure (some Err.noCandidateForAddress)
  | some candidate =>
    let delegations ← GetDelegationsByCandidate d.sender
    match ← deliver.withdrawCandidacy.loop d.params.HoldAccount delegations with
    | some e => pure (some e)
    | none =>
      removeCandidate candidate
      pure none

def deliver.verifyCandidacy (env : Env) (_d : deliver) (tx : TxVerifyCandidacy) :
    M GoError := do
  match ← GetCandidateByAddress tx.CandidateAddress with
  | none => goPanic
  | some candidate =>
    let candidate :=
      if tx.Verified then { candidate with Verified := "Y" }
      else { candidate with Verified := "N" }
    updateCandidate { candidate with UpdatedAt := env.now }
    pure none

def deliver.withdraw (env : Env) (d : deliver) (tx : TxWithdraw) : M GoError := do
  match ← GetCandidateByAddress tx.ValidatorAddress with
  | none => pure (some Err.noCandidateForAddress)
  | some candidate =>
    -- a nil delegation is dereferenced at the latest by delegation.Shares
    match ← GetDelegation d.sender tx.ValidatorAddress with
    | none => goPanic
    | some delegation =>
      RemoveDelegation delegation
      -- deduct shares from the candidate
      let candidate := { candidate with Shares := candidate.Shares - delegation.Shares }
      if candidate.Shares = 0 then removeCandidate candidate
      let now := env.now
      updateCandidate { candidate with UpdatedAt := now }
      saveDelegateHistory
        { Id := 0, DelegatorAddress := d.sender, CandidateAddress := tx.ValidatorAddress,
          Shares := 0, OpCode := "withdraw", CreatedAt := now }
      -- transfer coins back to account
      Transfer d.params.HoldAccount d.sender delegation.Shares

/-- `DeliverTx`: re-run `CheckTx`, then dispatch on the payload. -/
def DeliverTx (env : Env) (ctx : Context) (tx : Tx) : M GoError := do
  match ← CheckTx env ctx tx with
  | some e => pure (some e)
  | none =>
    match getTxSender ctx with
    | (_, some e) => pure (some e)
    | (sender, none) =>
      let params ← loadParams
      let deliverer : deliver := { sender := sender, params := params }
      match tx with
      | .declareCandidacy t => deliverer.declareCandidacy env t
      | .updateCandidacy t => deliverer.updateCandidacy env t
      | .withdrawCandidacy => deliverer.withdrawCandidacy
      | .verifyCandidacy t => deliverer.verifyCandidacy env t
      | .delegate t => deliverer.delegate env t
      | .withdraw t => deliverer.withdraw env t
      | .other => pure none

/-! ## Properties of a state -/

/-- A computation that, when it returns, returns in the state it started in. -/
def ReadOnly {α : Type} (m : M α) : Prop :=
  ∀ s, m s = none ∨ ∃ a, m s = some (a, s)

/-- The sum of the shares of the live delegations to the candidate at `a`. -/
def delegatedShares (s : State) (a : Address) : Int :=
  ((s.delegations.filter (fun d => decide (d.CandidateAddress = a))).map
    (fun d => d.Shares)).sum

/-- Conservation: each live candidate's shares are the sum of the shares of the
live delegations to it. -/
def Conservation (s : State) : Prop :=
  ∀ c ∈ s.candidates, c.Shares = delegatedShares s c.OwnerAddress

instance (s : State) : Decidable (Conservation s) := by
  unfold Conservation; infer_instance

/-- Stake bounds: `0 ≤ shares ≤ maxShares` for each live candidate. -/
def StakeBounds (s : State) : Prop :=
  ∀ c ∈ s.candidates, 0 ≤ c.Shares ∧ c.Shares ≤ c.MaxShares

instance (s : State) : Decidable (StakeBounds s) := by
  unfold StakeBounds; infer_instance

/-- No live candidate and no live delegation has `shares = 0`. -/
def NoZeroShares (s : State) : Prop :=
  (∀ c ∈ s.candidates, c.Shares ≠ 0) ∧ (∀ d ∈ s.delegations, d.Shares ≠ 0)

instance (s : State) : Decidable (NoZeroShares s) := by
  unfold NoZeroShares; infer_instance

/-- Uniqueness: no two live candidates share a public key or an owner address,
and no two live delegations share a (delegator, candidate) pair. -/
def Uniqueness (s : State) : Prop :=
  (s.candidates.map (fun c => c.PubKey)).Nodup ∧
  (s.candidates.map (fun c => c.OwnerAddress)).Nodup ∧
  (s.delegations.map (fun d => (d.DelegatorAddress, d.CandidateAddress))).Nodup

instance (s : State) : Decidable (Uniqueness s) := by
  unfold Uniqueness; infer_instance

/-- The two kinds whose delivery refunds from the hold account. -/
def Tx.isWithdrawal : Tx → Bool
  | .withdrawCandidacy => true
  | .withdraw _ => true
  | _ => false

/-- A non-empty run of decimal digits. -/
def isDecimalNumeral (cs : List Char) : Bool :=
  !cs.isEmpty && cs.all Char.isDigit

/-- The string denotes an integer in base 10: an optional sign, then digits. -/
def denotesInteger (s : String) : Bool :=
  match s.toList with
  | '-' :: ds => isDecimalNumeral ds
  | '+' :: ds => isDecimalNumeral ds
  | ds => isDecimalNumeral ds

/-- The string denotes a non-negative integer in base 10, as the amount of a
Delegate is described: no minus sign. -/
def denotesNonNegative (s : String) : Bool :=
  match s.toList with
  | '-' :: _ => false
  | '+' :: ds => isDecimalNumeral ds
  | ds => isDecimalNumeral ds

/-- The balances after a successful transfer. -/
def transferred (bs : List (Address × Int)) (src dst : Address) (amount : Int) :
    List (Address × Int) :=
  (dst, balanceOf ((src, balanceOf bs src - amount) :: bs) dst + amount)
    :: (src, balanceOf bs src - amount) :: bs

/-- Every transfer of the refund loop succeeds: the hold account covers each
delegation in turn. -/
def refundsSucceed (hold : Address) : List (Address × Int) → List Delegation → Bool
  | _, [] => true
  | bs, d :: rest =>
    !decide (balanceOf bs hold < d.Shares) &&
      refundsSucceed hold (transferred bs hold d.DelegatorAddress d.Shares) rest

/-- The balances after the refund loop has run over all the delegations. -/
def refunded (hold : Address) : List (Address × Int) → List Delegation → List (Address × Int)
  | bs, [] => bs
  | bs, d :: rest => refunded hold (transferred bs hold d.DelegatorAddress d.Shares) rest

/-- The shares of the listed delegations made by `a`. -/
def sharesOf (ds : List Delegation) (a : Address) : Int :=
  ((ds.filter (fun d => decide (d.DelegatorAddress = a))).map (fun d => d.Shares)).sum

/-- The shares of all the listed delegations. -/
def totalShares (ds : List Delegation) : Int :=
  (ds.map (fun d => d.Shares)).sum

/-! ## Sample inputs -/

/-- An environment for the examples: `ValidateBasic` accepts, the clock reads 7,
the default hold account is 99, the `big.Float` operations are tabulated at
the operands the examples use (all exact in binary, ratio one half), and the
decoder knows two genesis values, a validator at the zero address and one at
address 1. -/
def sampleEnv : Env :=
  { validateBasic := fun _ => none
    floatMulString := fun a b =>
      match a, b with
      | "1000", "0.5" => some "500"
      | "600", "0.5" => some "300"
      | "-1000", "0.5" => some "-500"
      | _, _ => none
    floatQuoString := fun a b =>
      match a, b with
      | "400", "0.5" => some "800"
      | "1000", "0.5" => some "2000"
      | "2000", "0.5" => some "4000"
      | _, _ => none
    now := 7
    DefaultHoldAccount := 99
    fromJSON := fun v =>
      match v with
      | "zero" =>
        some { PubKey := "P0", Power := 10, Address := 0, MaxAmount := 1000, Cut := 0 }
      | "one" =>
        some { PubKey := "P9", Power := 10, Address := 1, MaxAmount := 1000, Cut := 0 }
      | _ => none }

def sampleParams : Params :=
  { ReserveRequirementRatio := "0.5", MaxVals := 100, HoldAccount := 99 }

/-- A candidate owned by account 1 with 100 of at most 1000 shares. -/
def sampleCandidate : Candidate :=
  { PubKey := "P1", OwnerAddress := 1, Shares := 100, VotingPower := 0,
    MaxShares := 1000, Cut := 0, Description := "", Verified := "N",
    CreatedAt := 0, UpdatedAt := 0 }

/-- A second candidate, owned by account 2. -/
def otherCandidate : Candidate :=
  { PubKey := "P2", OwnerAddress := 2, Shares := 40, VotingPower := 0,
    MaxShares := 1000, Cut := 0, Description := "", Verified := "N",
    CreatedAt := 0, UpdatedAt := 0 }

/-- A ledger without candidates; account 1 holds 5000. -/
def emptyState : State :=
  { candidates := [], delegations := [], history := [],
    balances := [(1, 5000)], params := sampleParams }

/-- One candidate backed by its own delegation of 100; the hold account holds
those 100. -/
def sampleState : State :=
  { candidates := [sampleCandidate],
    delegations := [{ DelegatorAddress := 1, CandidateAddress := 1, Shares := 100,
                      CreatedAt := 0, UpdatedAt := 0 }],
    history := [],
    balances := [(1, 5000), (2, 50), (99, 100)],
    params := sampleParams }

/-- Two candidates, each backed by its own delegation. -/
def twoCandidates : State :=
  { candidates := [sampleCandidate, otherCandidate],
    delegations := [{ DelegatorAddress := 1, CandidateAddress := 1, Shares := 100,
                      CreatedAt := 0, UpdatedAt := 0 },
                    { DelegatorAddress := 2, CandidateAddress := 2, Shares := 40,
                      CreatedAt := 0, UpdatedAt := 0 }],
    history := [],
    balances := [(1, 5000), (2, 50), (99, 140)],
    params := sampleParams }

/-- The ledger of `sampleState` with its candidate already verified. -/
def verifiedState : State :=
  { sampleState with candidates := [{ sampleCandidate with Verified := "Y" }] }

/-- The ledger of `sampleState` with a second delegation, of 30 by account 2,
and the hold account holding both. -/
def twoDelegations : State :=
  { sampleState with
    candidates := [{ sampleCandidate with Shares := 130 }]
    delegations := [{ DelegatorAddress := 1, CandidateAddress := 1, Shares := 100,
                      CreatedAt := 0, UpdatedAt := 0 },
                    { DelegatorAddress := 2, CandidateAddress := 1, Shares := 30,
                      CreatedAt := 0, UpdatedAt := 0 }]
    balances := [(1, 5000), (2, 50), (99, 130)] }

/-- The ledger that the UpdateCandidacy of account 1 with new address 2 leaves
from `twoCandidates`: both candidates are owned by account 2. -/
def sharedOwnerState : State :=
  { twoCandidates with
    candidates := [{ sampleCandidate with OwnerAddress := 2, UpdatedAt := 7 },
                   otherCandidate] }

/-- The ledger of `sampleState` with an empty hold account. -/
def shortHoldState : State :=
  { sampleState with balances := [(1, 5000), (99, 0)] }


theorem ReadOnly.pure {α : Type} (a : α) : ReadOnly (pure a : M α) :=
  fun _ => Or.inr ⟨a, rfl⟩

theorem ReadOnly.goPanic {α : Type} : ReadOnly (goPanic : M α) :=
  fun _ => Or.inl rfl

theorem bind_run_none {α β : Type} {m : M α} {f : α → M β} {s : State}
    (h : m s = none) : (m >>= f) s = none := by
  show (StateT.bind m f) s = none
  simp [StateT.bind, h]

theorem bind_run_some {α β : Type} {m : M α} {f : α → M β} {s s1 : State} {a : α}
    (h : m s = some (a, s1)) : (m >>= f) s = f a s1 := by
  show (StateT.bind m f) s = f a s1
  simp [StateT.bind, h]

theorem ReadOnly.bind {α β : Type} {m : M α} {f : α → M β}
    (hm : ReadOnly m) (hf : ∀ a, ReadOnly (f a)) : ReadOnly (m >>= f) := by
  intro s
  rcases hm s with h | ⟨a, h⟩
  · exact Or.inl (bind_run_none h)
  · rw [bind_run_some h]
    exact hf a s

theorem ReadOnly.GetCandidateByAddress (a : Address) :
    ReadOnly (GetCandidateByAddress a) :=
  fun _ => Or.inr ⟨_, rfl⟩

theorem ReadOnly.GetCandidateByPubKey (k : String) :
    ReadOnly (GetCandidateByPubKey k) :=
  fun _ => Or.inr ⟨_, rfl⟩

theorem ReadOnly.GetDelegation (a b : Address) : ReadOnly (GetDelegation a b) :=
  fun _ => Or.inr ⟨_, rfl⟩

theorem ReadOnly.GetBalance (a : Address) : ReadOnly (GetBalance a) :=
  fun _ => Or.inr ⟨_, rfl⟩

theorem ReadOnly.loadParams : ReadOnly loadParams :=
  fun _ => Or.inr ⟨_, rfl⟩

theorem check.delegate_readOnly (c : check) (tx : TxDelegate) :
    ReadOnly (c.delegate tx) := by
  unfold check.delegate
  refine ReadOnly.bind (ReadOnly.GetCandidateByAddress _) fun a => ?_
  split
  · exact ReadOnly.pure _
  · refine ReadOnly.bind (ReadOnly.GetBalance _) fun b => ?_
    repeat (first | exact ReadOnly.pure _ | split)

theorem check.declareCandidacy_readOnly (env : Env) (c : check) (tx : TxDeclareCandidacy) :
    ReadOnly (c.declareCandidacy env tx) := by
  unfold check.declareCandidacy
  refine ReadOnly.bind (ReadOnly.GetCandidateByAddress _) fun a => ?_
  split
  · exact ReadOnly.pure _
  · refine ReadOnly.bind (ReadOnly.GetCandidateByPubKey _) fun b => ?_
    split
    · exact ReadOnly.pure _
    · split
      · exact ReadOnly.goPanic
      · exact check.delegate_readOnly _ _

theorem check.updateCandidacy_readOnly (env : Env) (c : check) (tx : TxUpdateCandidacy) :
    ReadOnly (c.updateCandidacy env tx) := by
  unfold check.updateCandidacy
  refine ReadOnly.bind (ReadOnly.GetCandidateByAddress _) fun a => ?_
  split
  · exact ReadOnly.pure _
  · split
    · split
      · exact ReadOnly.goPanic
      · refine ReadOnly.bind (ReadOnly.GetBalance _) fun b => ?_
        repeat (first | exact ReadOnly.pure _ | exact ReadOnly.goPanic | split)
    · exact ReadOnly.pure _

theorem check.withdrawCandidacy_readOnly (c : check) : ReadOnly c.withdrawCandidacy := by
  unfold check.withdrawCandidacy
  refine ReadOnly.bind (ReadOnly.GetCandidateByAddress _) fun a => ?_
  split <;> exact ReadOnly.pure _

theorem check.verifyCandidacy_readOnly (c : check) (tx : TxVerifyCandidacy) :
    ReadOnly (c.verifyCandidacy tx) := by
  unfold check.verifyCandidacy
  refine ReadOnly.bind (ReadOnly.GetCandidateByAddress _) fun a => ?_
  repeat (first | exact ReadOnly.pure _ | split)

theorem check.withdraw_readOnly (c : check) (tx : TxWithdraw) :
    ReadOnly (c.withdraw tx) := by
  unfold check.withdraw
  refine ReadOnly.bind (ReadOnly.GetCandidateByAddress _) fun a => ?_
  split
  · exact ReadOnly.pure _
  · refine ReadOnly.bind (ReadOnly.GetDelegation _ _) fun b => ?_
    split <;> exact ReadOnly.pure _

theorem CheckTx_readOnly (env : Env) (ctx : Context) (tx : Tx) :
    ReadOnly (CheckTx env ctx tx) := by
  unfold CheckTx
  split
  · exact ReadOnly.pure _
  · split
    · exact ReadOnly.pure _
    · refine ReadOnly.bind ReadOnly.loadParams fun p => ?_
      cases tx with
      | declareCandidacy t => exact check.declareCandidacy_readOnly _ _ _
      | updateCandidacy t => exact check.updateCandidacy_readOnly _ _ _
      | withdrawCandidacy => exact check.withdrawCandidacy_readOnly _
      | verifyCandidacy t => exact check.verifyCandidacy_readOnly _ _
      | delegate t => exact check.delegate_readOnly _ _
      | withdraw t => exact check.withdraw_readOnly _ _
      | other => exact ReadOnly.pure _

/-- C1. If `CheckTx` returns an error on a state, `DeliverTx` on that state
returns the same error and ends in the state it started in: no candidate or
delegation write, no transfer, no history append. -/
theorem DeliverTx_rejects_what_CheckTx_rejects (env : Env) (ctx : Context) (tx : Tx)
    (s s1 : State) (e : Err) (h : CheckTx env ctx tx s = some (some e, s1)) :
    DeliverTx env ctx tx s = some (some e, s) ∧ s1 = s := by
  have hs : s1 = s := by
    rcases CheckTx_readOnly env ctx tx s with h0 | ⟨a, h0⟩
    · rw [h0] at h; cases h
    · rw [h0] at h; cases h; rfl
  subst hs
  refine ⟨?_, rfl⟩
  unfold DeliverTx
  rw [bind_run_some h]
  rfl

theorem DeliverTx_rejects_what_CheckTx_rejects_witness :
    CheckTx sampleEnv ⟨[1]⟩ (.delegate { ValidatorAddress := 1, Amount := "5" }) emptyState
        = some (some Err.noCandidateForAddress, emptyState) ∧
      DeliverTx sampleEnv ⟨[1]⟩ (.delegate { ValidatorAddress := 1, Amount := "5" }) emptyState
        = some (some Err.noCandidateForAddress, emptyState) :=
  ⟨by decide,
   (DeliverTx_rejects_what_CheckTx_rejects sampleEnv ⟨[1]⟩ _ emptyState emptyState _
      (by decide)).1⟩

/-- C8. `CheckTx` is read-only and deterministic: whenever it returns, the
state (candidates, delegations, parameters, balances, history) is the one it
started in, and a second call right after the first returns the same result,
again without a write. -/
theorem CheckTx_idempotent (env : Env) (ctx : Context) (tx : Tx) (s : State) :
    CheckTx env ctx tx s = none ∨
      ∃ r, CheckTx env ctx tx s = some (r, s) ∧
        (CheckTx env ctx tx >>= fun r1 =>
          CheckTx env ctx tx >>= fun r2 => pure (r1, r2)) s = some ((r, r), s) := by
  rcases CheckTx_readOnly env ctx tx s with h | ⟨r, h⟩
  · exact Or.inl h
  · refine Or.inr ⟨r, h, ?_⟩
    rw [bind_run_some h, bind_run_some h]
    rfl

/-! ## Running the handlers -/

@[simp] theorem run_pure {α : Type} (a : α) (s : State) :
    (pure a : M α) s = some (a, s) := rfl

@[simp] theorem run_goPanic {α : Type} (s : State) : (goPanic : M α) s = none := rfl

theorem run_bind {α β : Type} (m : M α) (f : α → M β) (s : State) :
    (m >>= f) s = match m s with
      | none => none
      | some (a, s1) => f a s1 := by
  cases h : m s with
  | none => exact bind_run_none h
  | some p => exact bind_run_some h

@[simp] theorem run_GetCandidateByAddress (a : Address) (s : State) :
    GetCandidateByAddress a s
      = some (s.candidates.find? (fun c => decide (c.OwnerAddress = a)), s) := rfl

@[simp] theorem run_GetCandidateByPubKey (k : String) (s : State) :
    GetCandidateByPubKey k s
      = some (s.candidates.find? (fun c => decide (c.PubKey = k)), s) := rfl

@[simp] theorem run_GetDelegation (a b : Address) (s : State) :
    GetDelegation a b s = some (s.delegations.find? (fun d => d.hasKey a b), s) := rfl

@[simp] theorem run_GetBalance (a : Address) (s : State) :
    GetBalance a s = some ((balanceOf s.balances a, none), s) := rfl

@[simp] theorem run_loadParams (s : State) : loadParams s = some (s.params, s) := rfl

/-- The result of `check.delegate`, as a function of the state. -/
theorem check.delegate_result (c : check) (tx : TxDelegate) (s : State) :
    c.delegate tx s = some (
      (match s.candidates.find? (fun c => decide (c.OwnerAddress = tx.ValidatorAddress)) with
       | none => some Err.noCandidateForAddress
       | some candidate =>
         match bigIntSetString tx.Amount with
         | none => some Err.badAmount
         | some amount =>
           if balanceOf s.balances c.sender < amount then some Err.insufficientFunds
           else if candidate.Shares + amount > candidate.MaxShares then
             some Err.reachMaxAmount
           else none), s) := by
  simp only [check.delegate, run_bind, run_GetCandidateByAddress]
  cases s.candidates.find? (fun c => decide (c.OwnerAddress = tx.ValidatorAddress)) with
  | none => simp
  | some candidate =>
    simp only [run_bind, run_GetBalance]
    cases bigIntSetString tx.Amount with
    | none => simp
    | some amount =>
      simp only []
      split <;> [rfl; (split <;> rfl)]

/-- What `CheckTx` computes once `ValidateBasic` and the signer check pass. -/
theorem CheckTx_run (env : Env) (ctx : Context) (tx : Tx) (s : State) (sender : Address)
    (hv : env.validateBasic tx = none) (hs : ctx.signers = [sender]) :
    CheckTx env ctx tx s =
      (match tx with
       | .declareCandidacy t => check.declareCandidacy env ⟨sender, s.params⟩ t
       | .updateCandidacy t => check.updateCandidacy env ⟨sender, s.params⟩ t
       | .withdrawCandidacy => check.withdrawCandidacy ⟨sender, s.params⟩
       | .verifyCandidacy t => check.verifyCandidacy ⟨sender, s.params⟩ t
       | .delegate t => check.delegate ⟨sender, s.params⟩ t
       | .withdraw t => check.withdraw ⟨sender, s.params⟩ t
       | .other => pure (some Err.unknownTxType)) s := by
  unfold CheckTx
  simp only [hv, getTxSender, hs, run_bind, run_loadParams]

/-- An accepted transaction passed `ValidateBasic` and has exactly one signer. -/
theorem CheckTx_ok_inv (env : Env) (ctx : Context) (tx : Tx) (s s1 : State)
    (h : CheckTx env ctx tx s = some (none, s1)) :
    env.validateBasic tx = none ∧ ∃ sender, ctx.signers = [sender] := by
  unfold CheckTx at h
  cases hv : env.validateBasic tx with
  | some e => simp [hv] at h
  | none =>
    refine ⟨rfl, ?_⟩
    match hs : ctx.signers with
    | [a] => exact ⟨a, rfl⟩
    | [] => simp [hv, getTxSender, hs] at h
    | _ :: _ :: _ => simp [hv, getTxSender, hs] at h

/-- What `DeliverTx` computes once `CheckTx` has accepted. -/
theorem DeliverTx_run (env : Env) (ctx : Context) (tx : Tx) (s s1 : State) (sender : Address)
    (h : CheckTx env ctx tx s = some (none, s1)) (hs : ctx.signers = [sender]) :
    DeliverTx env ctx tx s =
      (match tx with
       | .declareCandidacy t => deliver.declareCandidacy env ⟨sender, s.params⟩ t
       | .updateCandidacy t => deliver.updateCandidacy env ⟨sender, s.params⟩ t
       | .withdrawCandidacy => deliver.withdrawCandidacy ⟨sender, s.params⟩
       | .verifyCandidacy t => deliver.verifyCandidacy env ⟨sender, s.params⟩ t
       | .delegate t => deliver.delegate env ⟨sender, s.params⟩ t
       | .withdraw t => deliver.withdraw env ⟨sender, s.params⟩ t
       | .other => pure none) s := by
  have hs1 : s1 = s := by
    rcases CheckTx_readOnly env ctx tx s with h0 | ⟨a, h0⟩
    · rw [h0] at h; cases h
    · rw [h0] at h; cases h; rfl
  subst hs1
  unfold DeliverTx
  rw [bind_run_some h]
  simp only [getTxSender, hs, run_bind, run_loadParams]

/-- `DeliverTx` returns the error of its admission re-check, in the same state. -/
theorem DeliverTx_of_CheckTx_error (env : Env) (ctx : Context) (tx : Tx) (s : State)
    (e : Err) (h : CheckTx env ctx tx s = some (some e, s)) :
    DeliverTx env ctx tx s = some (some e, s) := by
  unfold DeliverTx
  rw [bind_run_some h]
  rfl
/-- C4. When the target candidate exists, the amount parses as a base-10
integer and the sender's balance covers it, `check.delegate` returns the
max-stake error exactly when `shares + amount > maxShares`; and then `DeliverTx`
of that Delegate returns an error in the state it started in (the max-stake
error when the sender is the single signer and `ValidateBasic` passes). -/
theorem check_delegate_reachMax_iff (c : check) (tx : TxDelegate) (s : State)
    (candidate : Candidate) (amount : Int)
    (hc : GetCandidateByAddress tx.ValidatorAddress s = some (some candidate, s))
    (ha : bigIntSetString tx.Amount = some amount)
    (hb : amount ≤ balanceOf s.balances c.sender) :
    (c.delegate tx s = some (some Err.reachMaxAmount, s) ↔
        candidate.Shares + amount > candidate.MaxShares) ∧
      (candidate.Shares + amount > candidate.MaxShares →
        ∀ (env : Env) (ctx : Context),
          (∃ e, DeliverTx env ctx (.delegate tx) s = some (some e, s)) ∧
          (env.validateBasic (.delegate tx) = none → ctx.signers = [c.sender] →
            DeliverTx env ctx (.delegate tx) s = some (some Err.reachMaxAmount, s))) := by
  have hfind : s.candidates.find? (fun c => decide (c.OwnerAddress = tx.ValidatorAddress))
      = some candidate := by
    simpa using hc
  have hrun : ∀ c' : check, ¬ balanceOf s.balances c'.sender < amount →
      c'.delegate tx s = some ((if candidate.Shares + amount > candidate.MaxShares then
        some Err.reachMaxAmount else none), s) := by
    intro c' hb'
    rw [check.delegate_result, hfind]
    simp only [ha, hb', if_false]
  constructor
  · rw [hrun c (not_lt.mpr hb)]
    by_cases hgt : candidate.Shares + amount > candidate.MaxShares
    · simp [hgt]
    · simp [hgt]
  · intro hgt env ctx
    have herr : ∃ e, CheckTx env ctx (.delegate tx) s = some (some e, s) := by
      cases hv : env.validateBasic (.delegate tx) with
      | some e => exact ⟨e, by simp [CheckTx, hv]⟩
      | none =>
        match hs : ctx.signers with
        | [] => exact ⟨Err.missingSignature, by simp [CheckTx, hv, getTxSender, hs]⟩
        | _ :: _ :: _ =>
          exact ⟨Err.missingSignature, by simp [CheckTx, hv, getTxSender, hs]⟩
        | [a] =>
          rw [CheckTx_run env ctx _ s a hv hs]
          simp only []
          rw [check.delegate_result, hfind]
          simp only [ha]
          by_cases hlt : balanceOf s.balances a < amount
          · exact ⟨Err.insufficientFunds, by simp [hlt]⟩
          · exact ⟨Err.reachMaxAmount, by simp [hlt, hgt]⟩
    refine ⟨?_, ?_⟩
    · obtain ⟨e, he⟩ := herr
      exact ⟨e, DeliverTx_of_CheckTx_error env ctx _ s e he⟩
    · intro hv hs
      apply DeliverTx_of_CheckTx_error
      rw [CheckTx_run env ctx _ s c.sender hv hs]
      simp only []
      rw [hrun ⟨c.sender, s.params⟩ (not_lt.mpr hb)]
      simp [hgt]

theorem check_delegate_reachMax_iff_witness :
    (check.delegate ⟨1, sampleParams⟩ { ValidatorAddress := 1, Amount := "901" } sampleState
        = some (some Err.reachMaxAmount, sampleState) ↔
        sampleCandidate.Shares + 901 > sampleCandidate.MaxShares) ∧
      (sampleCandidate.Shares + 901 > sampleCandidate.MaxShares →
        ∀ (env : Env) (ctx : Context),
          (∃ e, DeliverTx env ctx (.delegate { ValidatorAddress := 1, Amount := "901" })
              sampleState = some (some e, sampleState)) ∧
          (env.validateBasic (.delegate { ValidatorAddress := 1, Amount := "901" }) = none →
            ctx.signers = [1] →
            DeliverTx env ctx (.delegate { ValidatorAddress := 1, Amount := "901" })
              sampleState = some (some Err.reachMaxAmount, sampleState))) :=
  check_delegate_reachMax_iff ⟨1, sampleParams⟩ { ValidatorAddress := 1, Amount := "901" }
    sampleState sampleCandidate 901 (by decide) (by decide) (by decide)

@[simp] theorem run_SaveDelegation (d : Delegation) (s : State) :
    SaveDelegation d s = some ((), { s with delegations := s.delegations ++ [d] }) := rfl

@[simp] theorem run_UpdateDelegation (d : Delegation) (s : State) :
    UpdateDelegation d s = some ((),
      { s with
        delegations := s.delegations.map
          (fun x => if x.hasKey d.DelegatorAddress d.CandidateAddress then d else x) }) := rfl

@[simp] theorem run_RemoveDelegation (d : Delegation) (s : State) :
    RemoveDelegation d s = some ((),
      { s with
        delegations := s.delegations.filter
          (fun x => !x.hasKey d.DelegatorAddress d.CandidateAddress) }) := rfl

@[simp] theorem run_SaveCandidate (c : Candidate) (s : State) :
    SaveCandidate c s = some ((), { s with candidates := s.candidates ++ [c] }) := rfl

@[simp] theorem run_updateCandidate (c : Candidate) (s : State) :
    updateCandidate c s = some ((),
      { s with
        candidates := s.candidates.map (fun x => if x.PubKey = c.PubKey then c else x) }) := rfl

@[simp] theorem run_removeCandidate (c : Candidate) (s : State) :
    removeCandidate c s = some ((),
      { s with
        candidates := s.candidates.filter (fun x => decide (x.PubKey ≠ c.PubKey)) }) := rfl

@[simp] theorem run_saveDelegateHistory (h : DelegateHistory) (s : State) :
    saveDelegateHistory h s = some ((), { s with history := s.history ++ [h] }) := rfl

theorem run_Transfer_ok (src dst : Address) (amount : Int) (s : State)
    (h : ¬ balanceOf s.balances src < amount) :
    Transfer src dst amount s
      = some (none, { s with balances := transferred s.balances src dst amount }) := by
  simp [Transfer, h, transferred]

theorem run_Transfer_fail (src dst : Address) (amount : Int) (s : State)
    (h : balanceOf s.balances src < amount) :
    Transfer src dst amount s = some (some Err.insufficientFunds, s) := by
  simp [Transfer, h]

theorem balanceOf_cons (a x : Address) (v : Int) (bs : List (Address × Int)) :
    balanceOf ((a, v) :: bs) x = if a = x then v else balanceOf bs x := by
  unfold balanceOf
  by_cases h : a = x <;> simp [List.find?, h]

theorem balanceOf_transferred (bs : List (Address × Int)) (src dst : Address)
    (amount : Int) (x : Address) :
    balanceOf (transferred bs src dst amount) x
      = balanceOf bs x - (if x = src then amount else 0)
          + (if x = dst then amount else 0) := by
  unfold transferred
  rw [balanceOf_cons, balanceOf_cons, balanceOf_cons]
  by_cases h1 : dst = x <;> by_cases h2 : src = x <;> by_cases h3 : src = dst <;>
    simp_all [eq_comm]

/-- The state `deliver.delegate` ends in on its success path. -/
theorem deliver.delegate_run (env : Env) (d : deliver) (tx : TxDelegate) (s : State)
    (candidate : Candidate) (amount : Int)
    (hc : s.candidates.find? (fun c => decide (c.OwnerAddress = tx.ValidatorAddress))
      = some candidate)
    (ha : bigIntSetString tx.Amount = some amount)
    (hb : ¬ balanceOf s.balances d.sender < amount) :
    d.delegate env tx s = some (none,
      { candidates := s.candidates.map (fun x =>
          if x.PubKey = candidate.PubKey then
            { candidate with Shares := candidate.Shares + amount } else x)
        delegations :=
          (match s.delegations.find? (fun x => x.hasKey d.sender tx.ValidatorAddress) with
           | none => s.delegations ++
               [{ DelegatorAddress := d.sender, CandidateAddress := tx.ValidatorAddress,
                  Shares := amount, CreatedAt := env.now, UpdatedAt := env.now }]
           | some delegation => s.delegations.map (fun x =>
               if x.hasKey delegation.DelegatorAddress delegation.CandidateAddress then
                 { delegation with Shares := delegation.Shares + amount,
                                   UpdatedAt := env.now } else x))
        history := s.history ++
          [{ Id := 0, DelegatorAddress := d.sender, CandidateAddress := tx.ValidatorAddress,
             Shares := amount, OpCode := "delegate", CreatedAt := env.now }]
        balances := transferred s.balances d.sender d.params.HoldAccount amount
        params := s.params }) := by
  simp only [deliver.delegate, run_bind, run_GetCandidateByAddress, hc, ha,
    run_Transfer_ok _ _ _ s hb, run_GetDelegation]
  cases s.delegations.find? (fun x => x.hasKey d.sender tx.ValidatorAddress) with
  | none => rfl
  | some delegation => rfl

theorem find?_map_replace {α : Type} (p : α → Bool) (q : α → Prop) [DecidablePred q]
    (c c' : α) (l : List α) (h : l.find? p = some c) (hq : q c) (hp : p c' = true) :
    (l.map (fun x => if q x then c' else x)).find? p = some c' := by
  induction l with
  | nil => simp at h
  | cons x xs ih =>
    rw [List.map_cons, List.find?_cons]
    by_cases hqx : q x
    · simp [hqx, hp]
    · simp only [hqx, if_false]
      cases hpx : p x with
      | true =>
        rw [List.find?_cons, hpx] at h
        cases h
        exact absurd hq hqx
      | false =>
        rw [List.find?_cons, hpx] at h
        exact ih h

theorem mem_map_replace {α : Type} (q : α → Prop) [DecidablePred q] (c' x : α)
    (l : List α) (hq : q c') (hx : ¬ q x) :
    x ∈ l.map (fun y => if q y then c' else y) ↔ x ∈ l := by
  rw [List.mem_map]
  constructor
  · rintro ⟨y, hy, hyx⟩
    by_cases hqy : q y
    · rw [if_pos hqy] at hyx
      subst hyx
      exact absurd hq hx
    · rw [if_neg hqy] at hyx
      subst hyx
      exact hy
  · intro h
    exact ⟨x, h, if_neg hx⟩

theorem find?_append_single {α : Type} (p : α → Bool) (d : α) (l : List α)
    (h : l.find? p = none) (hp : p d = true) : (l ++ [d]).find? p = some d := by
  induction l with
  | nil => simp [List.find?, hp]
  | cons x xs ih =>
    rw [List.find?_cons] at h
    cases hpx : p x with
    | true => rw [hpx] at h; cases h
    | false =>
      rw [hpx] at h
      rw [List.cons_append, List.find?_cons, hpx]
      exact ih h

theorem Delegation.hasKey_iff (d : Delegation) (a b : Address) :
    d.hasKey a b = true ↔ d.DelegatorAddress = a ∧ d.CandidateAddress = b := by
  simp [Delegation.hasKey]

/-- C10. A Delegate that passes admission is delivered: `DeliverTx` succeeds,
moves exactly the amount from the sender to the hold account, leaves the
(sender, validator) delegation with the amount (if there was none) or with its
old shares plus the amount, raises the candidate's shares by the amount,
appends the single history entry of kind delegate with that amount, and leaves
every candidate with another public key and every delegation with another key
as it was. -/
theorem DeliverTx_delegate_effect (env : Env) (ctx : Context) (tx : TxDelegate)
    (s s1 : State) (h : CheckTx env ctx (.delegate tx) s = some (none, s1)) :
    ∃ sender candidate amount s2 d2,
      ctx.signers = [sender] ∧
      s.candidates.find? (fun c => decide (c.OwnerAddress = tx.ValidatorAddress))
        = some candidate ∧
      bigIntSetString tx.Amount = some amount ∧
      DeliverTx env ctx (.delegate tx) s = some (none, s2) ∧
      (∀ a, balanceOf s2.balances a = balanceOf s.balances a
          - (if a = sender then amount else 0)
          + (if a = s.params.HoldAccount then amount else 0)) ∧
      s2.delegations.find? (fun x => x.hasKey sender tx.ValidatorAddress) = some d2 ∧
      d2.Shares =
        (match s.delegations.find? (fun x => x.hasKey sender tx.ValidatorAddress) with
         | none => amount
         | some d => d.Shares + amount) ∧
      s2.candidates.find? (fun c => decide (c.OwnerAddress = tx.ValidatorAddress))
        = some { candidate with Shares := candidate.Shares + amount } ∧
      s2.history = s.history ++
        [{ Id := 0, DelegatorAddress := sender, CandidateAddress := tx.ValidatorAddress,
           Shares := amount, OpCode := "delegate", CreatedAt := env.now }] ∧
      (∀ x : Candidate, x.PubKey ≠ candidate.PubKey →
        (x ∈ s2.candidates ↔ x ∈ s.candidates)) ∧
      (∀ x : Delegation, x.hasKey sender tx.ValidatorAddress = false →
        (x ∈ s2.delegations ↔ x ∈ s.delegations)) ∧
      s2.params = s.params := by
  obtain ⟨hv, sender, hs⟩ := CheckTx_ok_inv env ctx _ s s1 h
  have hrun := DeliverTx_run env ctx _ s s1 sender h hs
  rw [CheckTx_run env ctx _ s sender hv hs] at h
  simp only [] at h hrun
  rw [check.delegate_result] at h
  cases hc : s.candidates.find? (fun c => decide (c.OwnerAddress = tx.ValidatorAddress)) with
  | none => simp [hc] at h
  | some candidate =>
    cases ha : bigIntSetString tx.Amount with
    | none => simp [hc, ha] at h
    | some amount =>
      have hb : ¬ balanceOf s.balances sender < amount := by
        intro hlt
        simp [hc, ha, hlt] at h
      rw [deliver.delegate_run env ⟨sender, s.params⟩ tx s candidate amount hc ha hb] at hrun
      have hown : candidate.OwnerAddress = tx.ValidatorAddress := by
        simpa using List.find?_some hc
      cases hd : s.delegations.find? (fun x => x.hasKey sender tx.ValidatorAddress) with
      | none =>
        rw [hd] at hrun
        refine ⟨sender, candidate, amount, _,
          { DelegatorAddress := sender, CandidateAddress := tx.ValidatorAddress,
            Shares := amount, CreatedAt := env.now, UpdatedAt := env.now },
          hs, rfl, rfl, hrun, ?_, ?_, ?_, ?_, rfl, ?_, ?_, rfl⟩
        · intro a
          exact balanceOf_transferred _ _ _ _ _
        · exact find?_append_single _ _ _ hd (by simp [Delegation.hasKey])
        · rw [hd]
        · exact find?_map_replace _ (fun x => x.PubKey = candidate.PubKey) candidate
            { candidate with Shares := candidate.Shares + amount } _ hc rfl
            (by simpa using hown)
        · intro x hx
          exact mem_map_replace (fun x => x.PubKey = candidate.PubKey)
            { candidate with Shares := candidate.Shares + amount } x _ rfl hx
        · intro x hx
          simp only [List.mem_append, List.mem_singleton]
          constructor
          · rintro (hx1 | hx1)
            · exact hx1
            · subst hx1
              simp [Delegation.hasKey] at hx
          · exact Or.inl
      | some delegation =>
        rw [hd] at hrun
        have hk : delegation.hasKey sender tx.ValidatorAddress = true :=
          @List.find?_some _ (fun x : Delegation => x.hasKey sender tx.ValidatorAddress) _ _ hd
        have hkey := (Delegation.hasKey_iff _ _ _).mp hk
        have hfun : (fun x : Delegation =>
            x.hasKey delegation.DelegatorAddress delegation.CandidateAddress)
            = (fun x : Delegation => x.hasKey sender tx.ValidatorAddress) := by
          rw [hkey.1, hkey.2]
        refine ⟨sender, candidate, amount, _,
          { delegation with Shares := delegation.Shares + amount, UpdatedAt := env.now },
          hs, rfl, rfl, hrun, ?_, ?_, ?_, ?_, rfl, ?_, ?_, rfl⟩
        · intro a
          exact balanceOf_transferred _ _ _ _ _
        · simp only [hkey.1, hkey.2]
          exact find?_map_replace _ (fun x => x.hasKey sender tx.ValidatorAddress = true)
            delegation
            { DelegatorAddress := sender, CandidateAddress := tx.ValidatorAddress,
              Shares := delegation.Shares + amount, CreatedAt := delegation.CreatedAt,
              UpdatedAt := env.now } _ hd hk (by simp [Delegation.hasKey])
        · rw [hd]
        · exact find?_map_replace _ (fun x => x.PubKey = candidate.PubKey) candidate
            { candidate with Shares := candidate.Shares + amount } _ hc rfl
            (by simpa using hown)
        · intro x hx
          exact mem_map_replace (fun x => x.PubKey = candidate.PubKey)
            { candidate with Shares := candidate.Shares + amount } x _ rfl hx
        · intro x hx
          simp only [hkey.1, hkey.2]
          exact mem_map_replace (fun x => x.hasKey sender tx.ValidatorAddress = true)
            { DelegatorAddress := sender, CandidateAddress := tx.ValidatorAddress,
              Shares := delegation.Shares + amount, CreatedAt := delegation.CreatedAt,
              UpdatedAt := env.now } x _ (by simp [Delegation.hasKey]) (by simp [hx])
theorem check.declareCandidacy_not_ok (env : Env) (c : check) (t : TxDeclareCandidacy)
    (s s1 : State) : c.declareCandidacy env t s ≠ some (none, s1) := by
  intro h
  simp only [check.declareCandidacy, run_bind, run_GetCandidateByAddress] at h
  cases hc : s.candidates.find? (fun x => decide (x.OwnerAddress = c.sender)) with
  | some _ => simp [hc] at h
  | none =>
    simp only [hc, run_bind, run_GetCandidateByPubKey] at h
    cases hp : s.candidates.find? (fun x => decide (x.PubKey = t.PubKey)) with
    | some _ => simp [hp] at h
    | none =>
      simp only [hp] at h
      cases hz : env.floatMulString t.MaxAmount c.params.ReserveRequirementRatio with
      | none => simp [hz] at h
      | some z =>
        simp only [hz] at h
        rw [check.delegate_result] at h
        simp [hc] at h

theorem run_map {α β : Type} (f : α → β) (m : M α) (s : State) :
    (f <$> m) s = match m s with
      | none => none
      | some (a, s1) => some (f a, s1) := by
  show (StateT.map f m) s = _
  unfold StateT.map
  cases h : m s with
  | none => simp [h]
  | some p => simp [h]

theorem Transfer_run (src dst : Address) (amount : Int) (s : State) :
    ∃ r bs, Transfer src dst amount s = some (r, { s with balances := bs }) := by
  by_cases h : balanceOf s.balances src < amount
  · exact ⟨_, s.balances, run_Transfer_fail _ _ _ _ h⟩
  · exact ⟨_, _, run_Transfer_ok _ _ _ _ h⟩

/-- What `deliver.updateCandidacy` does when it returns: either the sender owns
no candidate and nothing is written, or the sender's record is rewritten. -/
theorem deliver.updateCandidacy_cases (env : Env) (d : deliver) (t : TxUpdateCandidacy)
    (s s2 : State) (r : GoError) (h : d.updateCandidacy env t s = some (r, s2)) :
    (r = some Err.noCandidateForAddress ∧ s2 = s ∧
      s.candidates.find? (fun c => decide (c.OwnerAddress = d.sender)) = none) ∨
    (r = none ∧ ∃ candidate maxAmount,
      s.candidates.find? (fun c => decide (c.OwnerAddress = d.sender)) = some candidate ∧
      bigIntSetString t.MaxAmount = some maxAmount ∧
      s2.candidates = s.candidates.map (fun x =>
        if x.PubKey = candidate.PubKey then
          { candidate with
            MaxShares := maxAmount
            Shares := if candidate.MaxShares ≠ maxAmount then candidate.MaxShares - maxAmount
                      else candidate.Shares
            OwnerAddress := t.NewAddress
            Verified := "N"
            UpdatedAt := env.now }
        else x) ∧
      s2.delegations = s.delegations ∧ s2.history = s.history ∧ s2.params = s.params) := by
  simp only [deliver.updateCandidacy, run_bind, run_GetCandidateByAddress] at h
  cases hc : s.candidates.find? (fun c => decide (c.OwnerAddress = d.sender)) with
  | none =>
    simp only [hc, run_pure, Option.some.injEq, Prod.mk.injEq] at h
    exact Or.inl ⟨h.1.symm, h.2.symm, rfl⟩
  | some candidate =>
    simp only [hc] at h
    cases hm : bigIntSetString t.MaxAmount with
    | none => simp [hm] at h
    | some maxAmount =>
      simp only [hm, run_bind] at h
      by_cases hne : candidate.MaxShares = maxAmount
      · simp only [hne, ne_eq, not_true_eq_false, if_false, run_pure, run_bind,
          run_updateCandidate, Option.some.injEq, Prod.mk.injEq] at h
        refine Or.inr ⟨h.1.symm, candidate, maxAmount, rfl, rfl, ?_, ?_, ?_, ?_⟩ <;>
          simp [← h.2, hne]
      · simp only [ne_eq, hne, not_false_eq_true, if_true, run_bind] at h
        cases hz : env.floatMulString (bigIntString (candidate.MaxShares - maxAmount))
            d.params.ReserveRequirementRatio with
        | none =>
          simp only [hz, run_bind, run_goPanic] at h
          cases h
        | some z =>
          simp only [hz] at h
          cases hamt : bigIntSetString z with
          | none =>
            simp only [hamt, run_bind, run_goPanic] at h
            cases h
          | some amount =>
            simp only [hamt, run_bind] at h
            split at h
            · obtain ⟨r1, bs, hT⟩ := Transfer_run d.sender env.DefaultHoldAccount amount s
              simp only [hT, run_pure, run_bind, run_updateCandidate, Option.some.injEq,
                Prod.mk.injEq] at h
              refine Or.inr ⟨h.1.symm, candidate, maxAmount, rfl, rfl, ?_, ?_, ?_, ?_⟩ <;>
                simp [← h.2, hne]
            · obtain ⟨r1, bs, hT⟩ := Transfer_run env.DefaultHoldAccount d.sender amount s
              simp only [hT, run_pure, run_bind, run_updateCandidate, Option.some.injEq,
                Prod.mk.injEq] at h
              refine Or.inr ⟨h.1.symm, candidate, maxAmount, rfl, rfl, ?_, ?_, ?_, ?_⟩ <;>
                simp [← h.2, hne]

theorem deliver.verifyCandidacy_cases (env : Env) (d : deliver) (t : TxVerifyCandidacy)
    (s s2 : State) (r : GoError) (h : d.verifyCandidacy env t s = some (r, s2)) :
    r = none ∧ ∃ candidate,
      s.candidates.find? (fun c => decide (c.OwnerAddress = t.CandidateAddress))
        = some candidate ∧
      s2 = { s with
             candidates := s.candidates.map (fun x =>
               if x.PubKey = candidate.PubKey then
                 { candidate with
                   Verified := if t.Verified then "Y" else "N"
                   UpdatedAt := env.now }
               else x) } := by
  simp only [deliver.verifyCandidacy, run_bind, run_GetCandidateByAddress] at h
  cases hc : s.candidates.find? (fun c => decide (c.OwnerAddress = t.CandidateAddress)) with
  | none => simp [hc] at h
  | some candidate =>
    simp only [hc, run_updateCandidate, run_bind, run_pure, Option.some.injEq,
      Prod.mk.injEq] at h
    refine ⟨h.1.symm, candidate, rfl, ?_⟩
    rw [← h.2]
    cases t.Verified <;> simp

theorem deliver.delegate_error (env : Env) (d : deliver) (t : TxDelegate)
    (s s2 : State) (e : Err) (h : d.delegate env t s = some (some e, s2)) : s2 = s := by
  simp only [deliver.delegate, run_bind, run_GetCandidateByAddress] at h
  cases ha : bigIntSetString t.Amount with
  | none =>
    simp only [ha, run_pure, Option.some.injEq, Prod.mk.injEq] at h
    exact h.2.symm
  | some amount =>
    simp only [ha, run_bind] at h
    by_cases hb : balanceOf s.balances d.sender < amount
    · simp only [run_Transfer_fail _ _ _ _ hb, run_pure, Option.some.injEq,
        Prod.mk.injEq] at h
      exact h.2.symm
    · exfalso
      simp only [run_Transfer_ok _ _ _ _ hb, run_GetDelegation, run_bind] at h
      cases hd : s.delegations.find? (fun x => x.hasKey d.sender t.ValidatorAddress) <;>
        cases hc : s.candidates.find? (fun c => decide (c.OwnerAddress = t.ValidatorAddress)) <;>
        simp [hd, hc, run_bind, run_map] at h

/-- What `deliver.withdraw` does when it returns. -/
theorem deliver.withdraw_cases (env : Env) (d : deliver) (t : TxWithdraw)
    (s s2 : State) (r : GoError) (h : d.withdraw env t s = some (r, s2)) :
    (r = some Err.noCandidateForAddress ∧ s2 = s ∧
      s.candidates.find? (fun c => decide (c.OwnerAddress = t.ValidatorAddress)) = none) ∨
    (∃ candidate delegation,
      s.candidates.find? (fun c => decide (c.OwnerAddress = t.ValidatorAddress))
        = some candidate ∧
      s.delegations.find? (fun x => x.hasKey d.sender t.ValidatorAddress)
        = some delegation ∧
      s2.delegations = s.delegations.filter
        (fun x => !x.hasKey delegation.DelegatorAddress delegation.CandidateAddress) ∧
      s2.candidates =
        (if candidate.Shares - delegation.Shares = 0 then
          s.candidates.filter (fun x => decide (x.PubKey ≠ candidate.PubKey))
         else s.candidates).map (fun x =>
          if x.PubKey = candidate.PubKey then
            { candidate with
              Shares := candidate.Shares - delegation.Shares
              UpdatedAt := env.now }
          else x) ∧
      s2.history = s.history ++
        [{ Id := 0, DelegatorAddress := d.sender, CandidateAddress := t.ValidatorAddress,
           Shares := 0, OpCode := "withdraw", CreatedAt := env.now }] ∧
      s2.params = s.params ∧
      ((balanceOf s.balances d.params.HoldAccount < delegation.Shares ∧
          r = some Err.insufficientFunds ∧ s2.balances = s.balances) ∨
       (¬ balanceOf s.balances d.params.HoldAccount < delegation.Shares ∧ r = none ∧
          s2.balances
            = transferred s.balances d.params.HoldAccount d.sender delegation.Shares))) := by
  simp only [deliver.withdraw, run_bind, run_GetCandidateByAddress] at h
  cases hc : s.candidates.find? (fun c => decide (c.OwnerAddress = t.ValidatorAddress)) with
  | none =>
    simp only [hc, run_pure, Option.some.injEq, Prod.mk.injEq] at h
    exact Or.inl ⟨h.1.symm, h.2.symm, rfl⟩
  | some candidate =>
    simp only [hc, run_bind, run_GetDelegation] at h
    cases hd : s.delegations.find? (fun x => x.hasKey d.sender t.ValidatorAddress) with
    | none =>
      simp only [hd, run_goPanic] at h
      cases h
    | some delegation =>
      simp only [hd, run_bind, run_RemoveDelegation] at h
      refine Or.inr ⟨candidate, delegation, rfl, rfl, ?_⟩
      by_cases hz : candidate.Shares - delegation.Shares = 0
      · by_cases hb : balanceOf s.balances d.params.HoldAccount < delegation.Shares
        · simp only [hz, if_true, run_bind, run_removeCandidate, run_updateCandidate,
            run_saveDelegateHistory, Transfer, hb, Option.some.injEq, Prod.mk.injEq] at h
          obtain ⟨h1, h2⟩ := h
          subst h2
          simp [hz, hb, h1.symm]
        · simp only [hz, if_true, run_bind, run_removeCandidate, run_updateCandidate,
            run_saveDelegateHistory, Transfer, hb, if_false, Option.some.injEq,
            Prod.mk.injEq] at h
          obtain ⟨h1, h2⟩ := h
          subst h2
          simp [hz, hb, h1.symm, transferred]
      · by_cases hb : balanceOf s.balances d.params.HoldAccount < delegation.Shares
        · simp only [hz, if_false, run_bind, run_pure, run_updateCandidate,
            run_saveDelegateHistory, Transfer, hb, if_true, Option.some.injEq,
            Prod.mk.injEq] at h
          obtain ⟨h1, h2⟩ := h
          subst h2
          simp [hz, hb, h1.symm]
        · simp only [hz, if_false, run_bind, run_pure, run_updateCandidate,
            run_saveDelegateHistory, Transfer, hb, Option.some.injEq, Prod.mk.injEq] at h
          obtain ⟨h1, h2⟩ := h
          subst h2
          simp [hz, hb, h1.symm, transferred]

/-- The refund loop writes only balances and delegations, and only removes
delegations. -/
theorem deliver.withdrawCandidacy.loop_cases (hold : Address) (ds : List Delegation) :
    ∀ (s s2 : State) (r : GoError),
      deliver.withdrawCandidacy.loop hold ds s = some (r, s2) →
      s2.candidates = s.candidates ∧ s2.history = s.history ∧ s2.params = s.params ∧
        (∀ x ∈ s2.delegations, x ∈ s.delegations) := by
  induction ds with
  | nil =>
    intro s s2 r h
    simp only [deliver.withdrawCandidacy.loop, run_pure, Option.some.injEq,
      Prod.mk.injEq] at h
    rw [← h.2]
    exact ⟨rfl, rfl, rfl, fun _ hx => hx⟩
  | cons delegation rest ih =>
    intro s s2 r h
    simp only [deliver.withdrawCandidacy.loop, run_bind] at h
    by_cases hb : balanceOf s.balances hold < delegation.Shares
    · rw [run_Transfer_fail _ _ _ _ hb] at h
      simp only [run_pure, Option.some.injEq, Prod.mk.injEq] at h
      rw [← h.2]
      exact ⟨rfl, rfl, rfl, fun _ hx => hx⟩
    · rw [run_Transfer_ok _ _ _ _ hb] at h
      simp only [run_bind, run_RemoveDelegation] at h
      obtain ⟨h1, h2, h3, h4⟩ := ih _ _ _ h
      refine ⟨h1, h2, h3, fun x hx => ?_⟩
      exact (List.mem_filter.mp (h4 x hx)).1

theorem deliver.withdrawCandidacy_cases (d : deliver) (s s2 : State) (r : GoError)
    (h : d.withdrawCandidacy s = some (r, s2)) :
    (∀ x ∈ s2.candidates, x ∈ s.candidates) ∧ (∀ x ∈ s2.delegations, x ∈ s.delegations) ∧
      s2.history = s.history ∧ s2.params = s.params := by
  simp only [deliver.withdrawCandidacy, run_bind, run_GetCandidateByAddress] at h
  cases hc : s.candidates.find? (fun c => decide (c.OwnerAddress = d.sender)) with
  | none =>
    simp only [hc, run_pure, Option.some.injEq, Prod.mk.injEq] at h
    rw [← h.2]
    exact ⟨fun _ hx => hx, fun _ hx => hx, rfl, rfl⟩
  | some candidate =>
    simp only [hc, run_bind, GetDelegationsByCandidate] at h
    cases hl : deliver.withdrawCandidacy.loop d.params.HoldAccount
        (s.delegations.filter (fun x => decide (x.CandidateAddress = d.sender))) s with
    | none => simp [hl] at h
    | some p =>
      obtain ⟨r1, s3⟩ := p
      obtain ⟨h1, h2, h3, h4⟩ := deliver.withdrawCandidacy.loop_cases _ _ _ _ _ hl
      simp only [hl] at h
      cases r1 with
      | some e =>
        simp only [run_pure, Option.some.injEq, Prod.mk.injEq] at h
        rw [← h.2, h1]
        exact ⟨fun _ hx => hx, h4, h2, h3⟩
      | none =>
        simp only [run_bind, run_removeCandidate, run_pure, Option.some.injEq,
          Prod.mk.injEq] at h
        rw [← h.2]
        refine ⟨fun x hx => ?_, h4, h2, h3⟩
        simp only [h1] at hx
        exact (List.mem_filter.mp hx).1
/-- `DeliverTx` succeeds only after `CheckTx` has accepted, in the same state. -/
theorem DeliverTx_ok_inv (env : Env) (ctx : Context) (tx : Tx) (s s2 : State)
    (h : DeliverTx env ctx tx s = some (none, s2)) :
    CheckTx env ctx tx s = some (none, s) := by
  rcases CheckTx_readOnly env ctx tx s with h0 | ⟨r, h0⟩
  · unfold DeliverTx at h
    rw [bind_run_none h0] at h
    cases h
  · cases r with
    | none => exact h0
    | some e =>
      rw [DeliverTx_of_CheckTx_error env ctx tx s e h0] at h
      cases h

/-- C7 (amended). If `DeliverTx` returns an error on a transaction that is not a
Withdraw or a WithdrawCandidacy, or returns the error of the admission re-check,
then the candidates, delegations, balances, history and parameters are the
ones it started with. -/
theorem DeliverTx_error_unchanged (env : Env) (ctx : Context) (tx : Tx) (s s2 : State)
    (e : Err) (h : DeliverTx env ctx tx s = some (some e, s2))
    (hk : tx.isWithdrawal = false ∨ ∃ e1 s1, CheckTx env ctx tx s = some (some e1, s1)) :
    s2 = s := by
  rcases CheckTx_readOnly env ctx tx s with h0 | ⟨r, h0⟩
  · unfold DeliverTx at h
    rw [bind_run_none h0] at h
    cases h
  · cases r with
    | some e1 =>
      rw [DeliverTx_of_CheckTx_error env ctx tx s e1 h0] at h
      cases h
      rfl
    | none =>
      have hw : tx.isWithdrawal = false := by
        rcases hk with hk | ⟨e1, s1, hk⟩
        · exact hk
        · rw [h0] at hk
          cases hk
      obtain ⟨hv, sender, hs⟩ := CheckTx_ok_inv env ctx tx s s h0
      rw [DeliverTx_run env ctx tx s s sender h0 hs] at h
      rw [CheckTx_run env ctx tx s sender hv hs] at h0
      cases tx with
      | declareCandidacy t => exact absurd h0 (check.declareCandidacy_not_ok _ _ _ _ _)
      | updateCandidacy t =>
        rcases deliver.updateCandidacy_cases env _ t s s2 _ h with ⟨_, h2, _⟩ | ⟨h1, _⟩
        · exact h2
        · cases h1
      | withdrawCandidacy => cases hw
      | verifyCandidacy t =>
        have := (deliver.verifyCandidacy_cases env _ t s s2 _ h).1
        cases this
      | delegate t => exact deliver.delegate_error env _ t s s2 e h
      | withdraw t => cases hw
      | other => cases h0

theorem DeliverTx_error_unchanged_witness :
    DeliverTx sampleEnv ⟨[1]⟩ (.delegate { ValidatorAddress := 1, Amount := "x" }) sampleState
        = some (some Err.badAmount, sampleState) ∧
      (Tx.delegate { ValidatorAddress := 1, Amount := "x" }).isWithdrawal = false ∧
      sampleState = sampleState :=
  ⟨by decide, by decide,
   DeliverTx_error_unchanged sampleEnv ⟨[1]⟩
     (.delegate { ValidatorAddress := 1, Amount := "x" }) sampleState sampleState
     Err.badAmount (by decide) (Or.inl (by decide))⟩

/-- C7 (counterexample). A Withdraw by account 1 whose refund the hold account
cannot cover returns the insufficient-funds error after the delegation and the
candidate have been removed and the history entry appended. -/
theorem DeliverTx_withdraw_error_after_writes :
    DeliverTx sampleEnv ⟨[1]⟩ (.withdraw { ValidatorAddress := 1 }) shortHoldState
        = some (some Err.insufficientFunds,
            { shortHoldState with
              candidates := []
              delegations := []
              history := [{ Id := 0, DelegatorAddress := 1, CandidateAddress := 1,
                            Shares := 0, OpCode := "withdraw", CreatedAt := 7 }] }) ∧
      ¬ (∀ (tx : Tx) (s s2 : State) (e : Err),
          DeliverTx sampleEnv ⟨[1]⟩ tx s = some (some e, s2) → s2 = s) := by
  have h : DeliverTx sampleEnv ⟨[1]⟩ (.withdraw { ValidatorAddress := 1 }) shortHoldState
      = some (some Err.insufficientFunds,
          { shortHoldState with
            candidates := []
            delegations := []
            history := [{ Id := 0, DelegatorAddress := 1, CandidateAddress := 1,
                          Shares := 0, OpCode := "withdraw", CreatedAt := 7 }] }) := by
    decide
  refine ⟨h, fun hall => ?_⟩
  have := hall _ _ _ _ h
  revert this
  decide
theorem forall_mem_map_replace {α : Type} (P : α → Prop) (q : α → Prop) [DecidablePred q]
    (c' : α) (l : List α) (hc : P c') (hl : ∀ x ∈ l, P x) :
    ∀ x ∈ l.map (fun y => if q y then c' else y), P x := by
  intro x hx
  obtain ⟨y, hy, hyx⟩ := List.mem_map.mp hx
  by_cases hq : q y
  · rw [if_pos hq] at hyx
    exact hyx ▸ hc
  · rw [if_neg hq] at hyx
    exact hyx ▸ hl y hy

theorem check.delegate_ok_inv (c : check) (t : TxDelegate) (s s1 : State)
    (h : c.delegate t s = some (none, s1)) :
    ∃ candidate amount,
      s.candidates.find? (fun x => decide (x.OwnerAddress = t.ValidatorAddress))
        = some candidate ∧
      bigIntSetString t.Amount = some amount ∧
      ¬ balanceOf s.balances c.sender < amount ∧
      ¬ candidate.Shares + amount > candidate.MaxShares := by
  rw [check.delegate_result] at h
  cases hc : s.candidates.find? (fun x => decide (x.OwnerAddress = t.ValidatorAddress)) with
  | none => simp [hc] at h
  | some candidate =>
    cases ha : bigIntSetString t.Amount with
    | none => simp [hc, ha] at h
    | some amount =>
      by_cases hb : balanceOf s.balances c.sender < amount
      · simp [hc, ha, hb] at h
      · by_cases hm : candidate.Shares + amount > candidate.MaxShares
        · simp [hc, ha, hb, hm] at h
        · exact ⟨candidate, amount, rfl, rfl, hb, hm⟩

/-- C5 (amended). In a state without zero-share candidates and delegations,
a successfully delivered transaction leaves none either, provided that a
Delegate carries a positive amount and is applied to a ledger without negative
shares; in particular a Withdraw that brings a candidate to exactly zero leaves
it absent. -/
theorem DeliverTx_preserves_noZeroShares (env : Env) (ctx : Context) (tx : Tx)
    (s s2 : State) (h0 : NoZeroShares s)
    (h : DeliverTx env ctx tx s = some (none, s2))
    (hd : ∀ t, tx = .delegate t →
      (∃ a, bigIntSetString t.Amount = some a ∧ 0 < a) ∧
      (∀ c ∈ s.candidates, 0 ≤ c.Shares) ∧ (∀ d ∈ s.delegations, 0 ≤ d.Shares)) :
    NoZeroShares s2 := by
  obtain ⟨h0c, h0d⟩ := h0
  have hchk := DeliverTx_ok_inv env ctx tx s s2 h
  obtain ⟨hv, sender, hs⟩ := CheckTx_ok_inv env ctx tx s s hchk
  rw [DeliverTx_run env ctx tx s s sender hchk hs] at h
  rw [CheckTx_run env ctx tx s sender hv hs] at hchk
  cases tx with
  | declareCandidacy t => exact absurd hchk (check.declareCandidacy_not_ok _ _ _ _ _)
  | updateCandidacy t =>
    rcases deliver.updateCandidacy_cases env _ t s s2 _ h with
      ⟨h1, _⟩ | ⟨_, candidate, maxAmount, hc, _, hcs, hds, _, _⟩
    · cases h1
    · refine ⟨?_, by rw [hds]; exact h0d⟩
      rw [hcs]
      refine forall_mem_map_replace (fun c : Candidate => c.Shares ≠ 0) _ _ _ ?_ h0c
      by_cases hne : candidate.MaxShares = maxAmount
      · simpa [hne] using h0c candidate (List.mem_of_find?_eq_some hc)
      · simpa [hne] using sub_ne_zero.mpr hne
  | withdrawCandidacy =>
    obtain ⟨h1, h2, _, _⟩ := deliver.withdrawCandidacy_cases _ s s2 _ h
    exact ⟨fun c hc => h0c c (h1 c hc), fun d hd => h0d d (h2 d hd)⟩
  | verifyCandidacy t =>
    obtain ⟨_, candidate, hc, hs2⟩ := deliver.verifyCandidacy_cases env _ t s s2 _ h
    subst hs2
    refine ⟨?_, h0d⟩
    exact forall_mem_map_replace (fun c : Candidate => c.Shares ≠ 0) _ _ _
      (h0c candidate (List.mem_of_find?_eq_some hc)) h0c
  | delegate t =>
    obtain ⟨⟨a, hpa, hpos⟩, hcn, hdn⟩ := hd t rfl
    obtain ⟨candidate, amount, hc, ha, hb, _⟩ := check.delegate_ok_inv _ t s s hchk
    have haa : a = amount := by
      rw [hpa] at ha
      exact Option.some.inj ha
    subst haa
    replace h : deliver.delegate env ⟨sender, s.params⟩ t s = some (none, s2) := h
    rw [deliver.delegate_run env ⟨sender, s.params⟩ t s candidate a hc ha hb] at h
    simp only [Option.some.injEq, Prod.mk.injEq, true_and] at h
    subst h
    constructor
    · refine forall_mem_map_replace (fun c : Candidate => c.Shares ≠ 0) _ _ _ ?_ h0c
      have := hcn candidate (List.mem_of_find?_eq_some hc)
      show candidate.Shares + a ≠ 0
      omega
    · simp only []
      cases hdl : s.delegations.find? (fun x => x.hasKey sender t.ValidatorAddress) with
      | none =>
        intro d hdm
        rcases List.mem_append.mp hdm with hdm | hdm
        · exact h0d d hdm
        · rw [List.mem_singleton.mp hdm]
          show a ≠ 0
          omega
      | some delegation =>
        refine forall_mem_map_replace (fun d : Delegation => d.Shares ≠ 0) _ _ _ ?_ h0d
        have := hdn delegation (List.mem_of_find?_eq_some hdl)
        show delegation.Shares + a ≠ 0
        omega
  | withdraw t =>
    rcases deliver.withdraw_cases env _ t s s2 _ h with
      ⟨h1, _⟩ | ⟨candidate, delegation, hc, _, hds, hcs, _, _, _⟩
    · cases h1
    · refine ⟨?_, ?_⟩
      · rw [hcs]
        by_cases hz : candidate.Shares - delegation.Shares = 0
        · rw [if_pos hz]
          intro x hx
          obtain ⟨y, hy, hyx⟩ := List.mem_map.mp hx
          obtain ⟨hy1, hy2⟩ := List.mem_filter.mp hy
          have hy3 : ¬ y.PubKey = candidate.PubKey := by simpa using hy2
          rw [if_neg hy3] at hyx
          exact hyx ▸ h0c y hy1
        · rw [if_neg hz]
          exact forall_mem_map_replace (fun c : Candidate => c.Shares ≠ 0) _ _ _ hz h0c
      · rw [hds]
        intro d hdm
        exact h0d d (List.mem_filter.mp hdm).1
  | other =>
    simp only [run_pure, Option.some.injEq, Prod.mk.injEq, true_and] at h
    subst h
    exact ⟨h0c, h0d⟩

theorem DeliverTx_preserves_noZeroShares_witness :
    NoZeroShares sampleState ∧
      DeliverTx sampleEnv ⟨[2]⟩ (.delegate { ValidatorAddress := 1, Amount := "50" }) sampleState
        = some (none,
            { sampleState with
              candidates := [{ sampleCandidate with Shares := 150 }]
              delegations := sampleState.delegations ++
                [{ DelegatorAddress := 2, CandidateAddress := 1, Shares := 50,
                   CreatedAt := 7, UpdatedAt := 7 }]
              history := [{ Id := 0, DelegatorAddress := 2, CandidateAddress := 1,
                            Shares := 50, OpCode := "delegate", CreatedAt := 7 }]
              balances := [(99, 150), (2, 0), (1, 5000), (2, 50), (99, 100)] }) ∧
      NoZeroShares
        { sampleState with
          candidates := [{ sampleCandidate with Shares := 150 }]
          delegations := sampleState.delegations ++
            [{ DelegatorAddress := 2, CandidateAddress := 1, Shares := 50,
               CreatedAt := 7, UpdatedAt := 7 }]
          history := [{ Id := 0, DelegatorAddress := 2, CandidateAddress := 1,
                        Shares := 50, OpCode := "delegate", CreatedAt := 7 }]
          balances := [(99, 150), (2, 0), (1, 5000), (2, 50), (99, 100)] } :=
  ⟨by decide, by decide,
   DeliverTx_preserves_noZeroShares sampleEnv ⟨[2]⟩
     (.delegate { ValidatorAddress := 1, Amount := "50" }) sampleState _
     (by decide) (by decide)
     (fun t ht => by
       cases ht
       exact ⟨⟨50, by decide, by decide⟩, by decide, by decide⟩)⟩

/-- C5 (counterexample). A Delegate of amount "0" by account 2, which holds no
delegation to the candidate, passes admission and leaves a live delegation
with zero shares in a ledger that had none. -/
theorem delegate_zero_leaves_zero_share_delegation :
    NoZeroShares sampleState ∧
      DeliverTx sampleEnv ⟨[2]⟩ (.delegate { ValidatorAddress := 1, Amount := "0" }) sampleState
        = some (none,
            { sampleState with
              delegations := sampleState.delegations ++
                [{ DelegatorAddress := 2, CandidateAddress := 1, Shares := 0,
                   CreatedAt := 7, UpdatedAt := 7 }]
              history := [{ Id := 0, DelegatorAddress := 2, CandidateAddress := 1,
                            Shares := 0, OpCode := "delegate", CreatedAt := 7 }]
              balances := [(99, 100), (2, 50), (1, 5000), (2, 50), (99, 100)] }) ∧
      ¬ NoZeroShares
        { sampleState with
          delegations := sampleState.delegations ++
            [{ DelegatorAddress := 2, CandidateAddress := 1, Shares := 0,
               CreatedAt := 7, UpdatedAt := 7 }]
          history := [{ Id := 0, DelegatorAddress := 2, CandidateAddress := 1,
                        Shares := 0, OpCode := "delegate", CreatedAt := 7 }]
          balances := [(99, 100), (2, 50), (1, 5000), (2, 50), (99, 100)] } := by
  refine ⟨by decide, by decide, by decide⟩
/-- C2 (failing input). On a ledger where conservation holds, an UpdateCandidacy
that lowers the ceiling from 1000 to 400 is delivered and leaves the candidate
with shares 600, the difference of the ceilings, against delegations of 100. -/
theorem updateCandidacy_breaks_conservation :
    Conservation sampleState ∧
      DeliverTx sampleEnv ⟨[1]⟩
          (.updateCandidacy { NewAddress := 1, MaxAmount := "400", Cut := 0, Description := "" })
          sampleState
        = some (none,
            { sampleState with
              candidates := [{ sampleCandidate with
                               Shares := 600, MaxShares := 400, UpdatedAt := 7 }]
              balances := [(99, 400), (1, 4700), (1, 5000), (2, 50), (99, 100)] }) ∧
      ¬ Conservation
        { sampleState with
          candidates := [{ sampleCandidate with
                           Shares := 600, MaxShares := 400, UpdatedAt := 7 }]
          balances := [(99, 400), (1, 4700), (1, 5000), (2, 50), (99, 100)] } := by
  refine ⟨by decide, by decide, by decide⟩

/-- C3 (failing input). On a ledger within the stake bounds, the UpdateCandidacy
that lowers the ceiling from 1000 to 400 is delivered and leaves the candidate
with shares 600 above its ceiling 400. -/
theorem updateCandidacy_breaks_stakeBounds :
    StakeBounds sampleState ∧
      (∃ s2, DeliverTx sampleEnv ⟨[1]⟩
          (.updateCandidacy { NewAddress := 1, MaxAmount := "400", Cut := 0, Description := "" })
          sampleState = some (none, s2) ∧
        s2.candidates.map (fun c => (c.Shares, c.MaxShares)) = [(600, 400)] ∧
        ¬ StakeBounds s2) :=
  ⟨by decide,
   { sampleState with
     candidates := [{ sampleCandidate with Shares := 600, MaxShares := 400, UpdatedAt := 7 }]
     balances := [(99, 400), (1, 4700), (1, 5000), (2, 50), (99, 100)] },
   by decide, by decide, by decide⟩

/-- C6 (failing input). On a ledger with two candidates owned by accounts 1 and
2, an UpdateCandidacy by account 1 with new address 2 and an unchanged ceiling
is delivered and leaves both candidates owned by account 2. -/
theorem updateCandidacy_breaks_uniqueness :
    Uniqueness twoCandidates ∧
      (∃ s2, DeliverTx sampleEnv ⟨[1]⟩
          (.updateCandidacy { NewAddress := 2, MaxAmount := "1000", Cut := 0, Description := "" })
          twoCandidates = some (none, s2) ∧
        s2.candidates.map (fun c => c.OwnerAddress) = [2, 2] ∧
        ¬ Uniqueness s2) :=
  ⟨by decide,
   { twoCandidates with
     candidates := [{ sampleCandidate with OwnerAddress := 2, UpdatedAt := 7 },
                    otherCandidate] },
   by decide, by decide, by decide⟩

/-- C9 (failing input). Account 1 owns no candidate, the key "P1" is unused and
the balance 5000 covers the reserve 500 of a ceiling of 1000, yet both `CheckTx`
and `DeliverTx` of the DeclareCandidacy return the no-candidate error of the
nested delegate check, and no candidate is created. -/
theorem declareCandidacy_rejected :
    CheckTx sampleEnv ⟨[1]⟩
        (.declareCandidacy { PubKey := "P1", MaxAmount := "1000", Cut := 0, Description := "" })
        emptyState = some (some Err.noCandidateForAddress, emptyState) ∧
      DeliverTx sampleEnv ⟨[1]⟩
        (.declareCandidacy { PubKey := "P1", MaxAmount := "1000", Cut := 0, Description := "" })
        emptyState = some (some Err.noCandidateForAddress, emptyState) := by
  refine ⟨by decide, by decide⟩

theorem DeliverTx_delegate_effect_witness :
    CheckTx sampleEnv ⟨[2]⟩ (.delegate { ValidatorAddress := 1, Amount := "50" }) sampleState
        = some (none, sampleState) ∧
      ∃ s2, DeliverTx sampleEnv ⟨[2]⟩ (.delegate { ValidatorAddress := 1, Amount := "50" })
          sampleState = some (none, s2) ∧
        balanceOf s2.balances 2 = 0 ∧ balanceOf s2.balances 99 = 150 ∧
        s2.candidates.find? (fun c => decide (c.OwnerAddress = 1))
          = some { sampleCandidate with Shares := 150 } ∧
        s2.history = [{ Id := 0, DelegatorAddress := 2, CandidateAddress := 1, Shares := 50,
                        OpCode := "delegate", CreatedAt := 7 }] := by
  have hchk : CheckTx sampleEnv ⟨[2]⟩ (.delegate { ValidatorAddress := 1, Amount := "50" })
      sampleState = some (none, sampleState) := by decide
  obtain ⟨sender, candidate, amount, s2, d2, hs, hc, ha, hrun, hbal, _, _, hcand, hhist, _⟩ :=
    DeliverTx_delegate_effect sampleEnv ⟨[2]⟩ { ValidatorAddress := 1, Amount := "50" }
      sampleState sampleState hchk
  have hsender : sender = 2 := by
    have : [2] = [sender] := hs
    simpa using this.symm
  have hamount : amount = 50 := by
    have h50 : bigIntSetString "50" = some 50 := by decide
    have : some (50 : Int) = some amount := h50.symm.trans ha
    simpa using this.symm
  have hcandidate : candidate = sampleCandidate := by
    have hfind : sampleState.candidates.find? (fun c => decide (c.OwnerAddress = 1))
        = some sampleCandidate := by decide
    have : some sampleCandidate = some candidate := hfind.symm.trans hc
    simpa using this.symm
  subst hsender hamount hcandidate
  refine ⟨hchk, s2, hrun, ?_, ?_, ?_, ?_⟩
  · rw [hbal 2]; decide
  · rw [hbal 99]; decide
  · rw [hcand]; rfl
  · rw [hhist]; rfl

/-- The result of `check.withdraw`, as a function of the state. -/
theorem check.withdraw_result (c : check) (t : TxWithdraw) (s : State) :
    c.withdraw t s = some (
      (match s.candidates.find? (fun x => decide (x.OwnerAddress = t.ValidatorAddress)) with
       | none => some Err.badValidatorAddr
       | some _ =>
         match s.delegations.find? (fun x => x.hasKey c.sender t.ValidatorAddress) with
         | none => some Err.delegationNotExists
         | some _ => none), s) := by
  simp only [check.withdraw, run_bind, run_GetCandidateByAddress]
  cases s.candidates.find? (fun x => decide (x.OwnerAddress = t.ValidatorAddress)) with
  | none => rfl
  | some candidate =>
    simp only [run_bind, run_GetDelegation]
    cases s.delegations.find? (fun x => x.hasKey c.sender t.ValidatorAddress) with
    | none => rfl
    | some delegation => rfl

/-- C11. When the target candidate exists, the sender holds a delegation to it
with shares `s` and the hold account holds at least `s`, `DeliverTx` of the
Withdraw succeeds: the sender's delegation is gone, the candidate's shares are
lowered by exactly `s` (its record being removed when that leaves zero), `s` is
moved from the hold account to the sender, one history entry of kind withdraw
is appended, and every delegation with another key and every candidate with
another public key is as it was. -/
theorem DeliverTx_withdraw_effect (env : Env) (ctx : Context) (t : TxWithdraw)
    (s : State) (sender : Address) (candidate : Candidate) (delegation : Delegation)
    (hv : env.validateBasic (.withdraw t) = none) (hs : ctx.signers = [sender])
    (hc : s.candidates.find? (fun x => decide (x.OwnerAddress = t.ValidatorAddress))
      = some candidate)
    (hd : s.delegations.find? (fun x => x.hasKey sender t.ValidatorAddress)
      = some delegation)
    (hb : delegation.Shares ≤ balanceOf s.balances s.params.HoldAccount) :
    ∃ s2, DeliverTx env ctx (.withdraw t) s = some (none, s2) ∧
      s2.delegations.find? (fun x => x.hasKey sender t.ValidatorAddress) = none ∧
      (∀ x : Delegation, x.hasKey sender t.ValidatorAddress = false →
        (x ∈ s2.delegations ↔ x ∈ s.delegations)) ∧
      (if candidate.Shares - delegation.Shares = 0 then
          ∀ x ∈ s2.candidates, x.PubKey ≠ candidate.PubKey
        else
          s2.candidates.find? (fun x => decide (x.OwnerAddress = t.ValidatorAddress))
            = some { candidate with
                     Shares := candidate.Shares - delegation.Shares
                     UpdatedAt := env.now }) ∧
      (∀ x : Candidate, x.PubKey ≠ candidate.PubKey →
        (x ∈ s2.candidates ↔ x ∈ s.candidates)) ∧
      (∀ a, balanceOf s2.balances a = balanceOf s.balances a
          - (if a = s.params.HoldAccount then delegation.Shares else 0)
          + (if a = sender then delegation.Shares else 0)) ∧
      s2.history = s.history ++
        [{ Id := 0, DelegatorAddress := sender, CandidateAddress := t.ValidatorAddress,
           Shares := 0, OpCode := "withdraw", CreatedAt := env.now }] ∧
      s2.params = s.params := by
  have hchk : CheckTx env ctx (.withdraw t) s = some (none, s) := by
    rw [CheckTx_run env ctx _ s sender hv hs]
    simp only []
    rw [check.withdraw_result]
    simp only [hc, hd]
  have hrun := DeliverTx_run env ctx _ s s sender hchk hs
  simp only [] at hrun
  have hk : delegation.hasKey sender t.ValidatorAddress = true :=
    @List.find?_some _ (fun x : Delegation => x.hasKey sender t.ValidatorAddress) _ _ hd
  have hkey := (Delegation.hasKey_iff _ _ _).mp hk
  have hown : candidate.OwnerAddress = t.ValidatorAddress := by
    simpa using List.find?_some hc
  cases hw : deliver.withdraw env ⟨sender, s.params⟩ t s with
  | none =>
    exfalso
    simp only [deliver.withdraw, run_bind, run_GetCandidateByAddress, hc, run_GetDelegation,
      hd, run_RemoveDelegation] at hw
    split at hw <;>
      simp [run_bind, run_map, Transfer] at hw <;> split at hw <;> simp at hw
  | some p =>
    obtain ⟨r, s2⟩ := p
    rw [hw] at hrun
    rcases deliver.withdraw_cases env _ t s s2 r hw with
      ⟨_, _, hnone⟩ | ⟨c1, d1, hc1, hd1, hds, hcs, hhist, hpar, hbal⟩
    · rw [hc] at hnone
      cases hnone
    · have e1 : c1 = candidate := by
        rw [hc] at hc1
        exact (Option.some.inj hc1).symm
      have e2 : d1 = delegation := by
        rw [show s.delegations.find? (fun x => x.hasKey sender t.ValidatorAddress)
          = some delegation from hd] at hd1
        exact (Option.some.inj hd1).symm
      subst e1 e2
      rcases hbal with ⟨hlt, _, _⟩ | ⟨_, hr, hbs⟩
      · exact absurd hb (not_le.mpr hlt)
      · subst hr
        refine ⟨s2, hrun, ?_, ?_, ?_, ?_, ?_, hhist, hpar⟩
        · rw [hds, hkey.1, hkey.2, List.find?_eq_none]
          intro x hx
          have := (List.mem_filter.mp hx).2
          simpa using this
        · intro x hx
          rw [hds, hkey.1, hkey.2, List.mem_filter]
          simp [hx]
        · by_cases hz : c1.Shares - d1.Shares = 0
          · rw [if_pos hz, hcs, if_pos hz]
            intro x hx
            obtain ⟨y, hy, hyx⟩ := List.mem_map.mp hx
            have hy3 : ¬ y.PubKey = c1.PubKey := by
              simpa using (List.mem_filter.mp hy).2
            rw [if_neg hy3] at hyx
            exact hyx ▸ hy3
          · rw [if_neg hz, hcs, if_neg hz]
            exact find?_map_replace _ (fun x => x.PubKey = c1.PubKey) c1
              { c1 with Shares := c1.Shares - d1.Shares, UpdatedAt := env.now } _ hc rfl
              (by simpa using hown)
        · intro x hx
          rw [hcs]
          by_cases hz : c1.Shares - d1.Shares = 0
          · rw [if_pos hz]
            rw [mem_map_replace (fun y => y.PubKey = c1.PubKey)
              { c1 with Shares := c1.Shares - d1.Shares, UpdatedAt := env.now } x _ rfl hx]
            rw [List.mem_filter]
            simp [hx]
          · rw [if_neg hz]
            exact mem_map_replace (fun y => y.PubKey = c1.PubKey)
              { c1 with Shares := c1.Shares - d1.Shares, UpdatedAt := env.now } x _ rfl hx
        · intro a
          rw [hbs]
          exact balanceOf_transferred _ _ _ _ _

theorem DeliverTx_withdraw_effect_witness :
    (30 : Int) ≤ balanceOf twoDelegations.balances twoDelegations.params.HoldAccount ∧
      ∃ s2, DeliverTx sampleEnv ⟨[2]⟩ (.withdraw { ValidatorAddress := 1 }) twoDelegations
          = some (none, s2) ∧
        s2.delegations.find? (fun x => x.hasKey 2 1) = none ∧
        s2.candidates.find? (fun x => decide (x.OwnerAddress = 1))
          = some { sampleCandidate with Shares := 100, UpdatedAt := 7 } ∧
        balanceOf s2.balances 2 = 80 ∧ balanceOf s2.balances 99 = 100 := by
  obtain ⟨s2, hrun, hgone, _, hcand, _, hbal, _, _⟩ :=
    DeliverTx_withdraw_effect sampleEnv ⟨[2]⟩ { ValidatorAddress := 1 } twoDelegations 2
      { sampleCandidate with Shares := 130 }
      { DelegatorAddress := 2, CandidateAddress := 1, Shares := 30,
        CreatedAt := 0, UpdatedAt := 0 }
      (by decide) rfl (by decide) (by decide) (by decide)
  refine ⟨by decide, s2, hrun, hgone, ?_, ?_, ?_⟩
  · rw [if_neg (by decide)] at hcand
    rw [hcand]
    rfl
  · rw [hbal 2]; decide
  · rw [hbal 99]; decide

theorem sharesOf_cons (d : Delegation) (rest : List Delegation) (a : Address) :
    sharesOf (d :: rest) a
      = (if d.DelegatorAddress = a then d.Shares else 0) + sharesOf rest a := by
  unfold sharesOf
  by_cases h : d.DelegatorAddress = a <;> simp [List.filter_cons, h]

theorem totalShares_cons (d : Delegation) (rest : List Delegation) :
    totalShares (d :: rest) = d.Shares + totalShares rest := by
  simp [totalShares]

theorem balanceOf_refunded (hold : Address) (ds : List Delegation) :
    ∀ (bs : List (Address × Int)) (a : Address),
      balanceOf (refunded hold bs ds) a
        = balanceOf bs a + sharesOf ds a - (if a = hold then totalShares ds else 0) := by
  induction ds with
  | nil =>
    intro bs a
    simp [refunded, sharesOf, totalShares]
  | cons d rest ih =>
    intro bs a
    rw [refunded, ih, balanceOf_transferred, sharesOf_cons, totalShares_cons]
    by_cases h2 : d.DelegatorAddress = a
    · subst h2
      by_cases h1 : d.DelegatorAddress = hold
      · simp only [h1, if_true]
        omega
      · simp only [h1, if_true, if_false]
        omega
    · have h3 : ¬ a = d.DelegatorAddress := fun h => h2 h.symm
      by_cases h1 : a = hold
      · simp only [h1, h2, h3, if_true, if_false] at *
        simp only [h2, h3, if_false]
        omega
      · simp only [h1, h2, h3, if_false]
        omega

/-- The refund loop, when every transfer succeeds: the balances are refunded and
every delegation with the key of a listed one is removed. -/
theorem deliver.withdrawCandidacy.loop_run (hold : Address) (ds : List Delegation) :
    ∀ (s : State), refundsSucceed hold s.balances ds = true →
      deliver.withdrawCandidacy.loop hold ds s = some (none,
        { s with
          delegations := s.delegations.filter (fun x =>
            ds.all (fun d => !x.hasKey d.DelegatorAddress d.CandidateAddress))
          balances := refunded hold s.balances ds }) := by
  induction ds with
  | nil =>
    intro s _
    simp [deliver.withdrawCandidacy.loop, refunded]
  | cons d rest ih =>
    intro s h
    simp only [refundsSucceed, Bool.and_eq_true, Bool.not_eq_true', decide_eq_false_iff_not]
      at h
    simp only [deliver.withdrawCandidacy.loop, run_bind, run_Transfer_ok _ _ _ _ h.1,
      run_RemoveDelegation]
    rw [ih _ h.2]
    simp [refunded, List.filter_filter, Bool.and_comm]

theorem filter_not_keyed (l : List Delegation) (a : Address) :
    l.filter (fun x =>
        (l.filter (fun d => decide (d.CandidateAddress = a))).all
          (fun d => !x.hasKey d.DelegatorAddress d.CandidateAddress))
      = l.filter (fun x => decide (x.CandidateAddress ≠ a)) := by
  apply List.filter_congr
  intro x hx
  by_cases hxa : x.CandidateAddress = a
  · have : ((l.filter (fun d => decide (d.CandidateAddress = a))).all
        (fun d => !x.hasKey d.DelegatorAddress d.CandidateAddress)) = false := by
      rw [List.all_eq_false]
      exact ⟨x, List.mem_filter.mpr ⟨hx, by simpa using hxa⟩, by simp [Delegation.hasKey]⟩
    rw [this]
    simp [hxa]
  · have : ((l.filter (fun d => decide (d.CandidateAddress = a))).all
        (fun d => !x.hasKey d.DelegatorAddress d.CandidateAddress)) = true := by
      rw [List.all_eq_true]
      intro d hd
      have hda : d.CandidateAddress = a := by simpa using (List.mem_filter.mp hd).2
      have : ¬ x.CandidateAddress = d.CandidateAddress := by rw [hda]; exact hxa
      simp [Delegation.hasKey, this]
    rw [this]
    simp [hxa]

/-- C12 (amended). When the sender owns a candidate, and no other, and every
refund out of the hold account succeeds, `DeliverTx` of the WithdrawCandidacy succeeds:
no delegation to that candidate and no candidate record of the sender is left,
every account has received the shares of its removed delegations (the hold
account having paid them all), and the delegations to other candidates and the
candidates with another public key are as they were. -/
theorem DeliverTx_withdrawCandidacy_effect (env : Env) (ctx : Context) (s : State)
    (sender : Address) (candidate : Candidate)
    (hv : env.validateBasic .withdrawCandidacy = none) (hs : ctx.signers = [sender])
    (hc : s.candidates.find? (fun x => decide (x.OwnerAddress = sender)) = some candidate)
    (hone : ∀ x ∈ s.candidates, x.OwnerAddress = sender → x.PubKey = candidate.PubKey)
    (ht : refundsSucceed s.params.HoldAccount s.balances
      (s.delegations.filter (fun d => decide (d.CandidateAddress = sender))) = true) :
    ∃ s2, DeliverTx env ctx .withdrawCandidacy s = some (none, s2) ∧
      (∀ d ∈ s2.delegations, d.CandidateAddress ≠ sender) ∧
      s2.candidates.find? (fun x => decide (x.OwnerAddress = sender)) = none ∧
      (∀ x ∈ s2.candidates, x.PubKey ≠ candidate.PubKey) ∧
      (∀ a, balanceOf s2.balances a = balanceOf s.balances a
          + sharesOf (s.delegations.filter (fun d => decide (d.CandidateAddress = sender))) a
          - (if a = s.params.HoldAccount then
              totalShares (s.delegations.filter (fun d => decide (d.CandidateAddress = sender)))
             else 0)) ∧
      (∀ d : Delegation, d.CandidateAddress ≠ sender →
        (d ∈ s2.delegations ↔ d ∈ s.delegations)) ∧
      (∀ x : Candidate, x.PubKey ≠ candidate.PubKey →
        (x ∈ s2.candidates ↔ x ∈ s.candidates)) ∧
      s2.history = s.history ∧ s2.params = s.params := by
  have hchk : CheckTx env ctx .withdrawCandidacy s = some (none, s) := by
    rw [CheckTx_run env ctx _ s sender hv hs]
    simp only [check.withdrawCandidacy, run_bind, run_GetCandidateByAddress, hc, run_pure]
  have hrun := DeliverTx_run env ctx _ s s sender hchk hs
  simp only [deliver.withdrawCandidacy, run_bind, run_GetCandidateByAddress, hc,
    GetDelegationsByCandidate, deliver.withdrawCandidacy.loop_run _ _ s ht,
    run_removeCandidate, run_pure, filter_not_keyed] at hrun
  refine ⟨_, hrun, ?_, ?_, ?_, ?_, ?_, ?_, rfl, rfl⟩
  · intro d hd
    simpa using (List.mem_filter.mp hd).2
  · rw [List.find?_eq_none]
    intro x hx
    obtain ⟨hx1, hx2⟩ := List.mem_filter.mp hx
    have hx3 : ¬ x.PubKey = candidate.PubKey := by simpa using hx2
    simpa using fun h => hx3 (hone x hx1 h)
  · intro x hx
    simpa using (List.mem_filter.mp hx).2
  · intro a
    exact balanceOf_refunded _ _ _ _
  · intro d hd
    show d ∈ s.delegations.filter (fun x => decide (x.CandidateAddress ≠ sender)) ↔ _
    rw [List.mem_filter]
    simp [hd]
  · intro x hx
    show x ∈ s.candidates.filter (fun y => decide (y.PubKey ≠ candidate.PubKey)) ↔ _
    rw [List.mem_filter]
    simp [hx]

theorem DeliverTx_withdrawCandidacy_effect_witness :
    refundsSucceed twoDelegations.params.HoldAccount twoDelegations.balances
        (twoDelegations.delegations.filter (fun d => decide (d.CandidateAddress = 1))) = true ∧
      ∃ s2, DeliverTx sampleEnv ⟨[1]⟩ .withdrawCandidacy twoDelegations = some (none, s2) ∧
        s2.delegations = [] ∧ s2.candidates = [] ∧
        balanceOf s2.balances 1 = 5100 ∧ balanceOf s2.balances 2 = 80 ∧
        balanceOf s2.balances 99 = 0 := by
  obtain ⟨s2, hrun, _, _, _, hbal, _, _, _, _⟩ :=
    DeliverTx_withdrawCandidacy_effect sampleEnv ⟨[1]⟩ twoDelegations 1
      { sampleCandidate with Shares := 130 } (by decide) rfl (by decide) (by decide)
      (by decide)
  have hval : DeliverTx sampleEnv ⟨[1]⟩ .withdrawCandidacy twoDelegations
      = some (none,
          { twoDelegations with
            candidates := []
            delegations := []
            balances := [(2, 80), (99, 0), (1, 5100), (99, 30), (1, 5000), (2, 50),
                         (99, 130)] }) := by decide
  refine ⟨by decide, s2, hrun, ?_, ?_, ?_, ?_, ?_⟩
  · rw [hval] at hrun; cases hrun; rfl
  · rw [hval] at hrun; cases hrun; rfl
  · rw [hbal 1]; decide
  · rw [hbal 2]; decide
  · rw [hbal 99]; decide

/-- C12 (counterexample). On the ledger that a delivered UpdateCandidacy leaves
with two candidates owned by account 2, account 2 owns a live candidate and the
one refund succeeds; `DeliverTx` of its WithdrawCandidacy succeeds and removes
the first of the two records, and the lookup by the sender's address still
returns a candidate. -/
theorem withdrawCandidacy_leaves_second_candidate :
    DeliverTx sampleEnv ⟨[1]⟩
        (.updateCandidacy { NewAddress := 2, MaxAmount := "1000", Cut := 0, Description := "" })
        twoCandidates = some (none, sharedOwnerState) ∧
      (sharedOwnerState.candidates.find? (fun x => decide (x.OwnerAddress = 2))).isSome = true ∧
      refundsSucceed sharedOwnerState.params.HoldAccount sharedOwnerState.balances
        (sharedOwnerState.delegations.filter (fun d => decide (d.CandidateAddress = 2)))
        = true ∧
      DeliverTx sampleEnv ⟨[2]⟩ .withdrawCandidacy sharedOwnerState
        = some (none,
            { sharedOwnerState with
              candidates := [otherCandidate]
              delegations := [{ DelegatorAddress := 1, CandidateAddress := 1, Shares := 100,
                                CreatedAt := 0, UpdatedAt := 0 }]
              balances := [(2, 90), (99, 100), (1, 5000), (2, 50), (99, 140)] }) ∧
      [otherCandidate].find? (fun x => decide (x.OwnerAddress = 2)) = some otherCandidate := by
  refine ⟨by decide, by decide, by decide, by decide, by decide⟩

/-- C13 (failing input). An UpdateCandidacy that raises the ceiling from 1000 to
2000 passes admission and is delivered with `diff = -1000`: the amount handed
to the transfer from the hold account to the sender is `-500`, so the sender's
balance falls from 5000 to 4500 and the hold account's rises from 100 to 600,
while the ceiling becomes 2000. -/
theorem updateCandidacy_raise_charges_sender :
    ∃ s2, DeliverTx sampleEnv ⟨[1]⟩
        (.updateCandidacy { NewAddress := 1, MaxAmount := "2000", Cut := 0, Description := "" })
        sampleState = some (none, s2) ∧
      balanceOf sampleState.balances 1 = 5000 ∧ balanceOf sampleState.balances 99 = 100 ∧
      balanceOf s2.balances 1 = 4500 ∧ balanceOf s2.balances 99 = 600 ∧
      s2.candidates.map (fun c => c.MaxShares) = [2000] :=
  ⟨{ sampleState with
     candidates := [{ sampleCandidate with Shares := -1000, MaxShares := 2000, UpdatedAt := 7 }]
     balances := [(1, 4500), (99, 600), (1, 5000), (2, 50), (99, 100)] },
   by decide, by decide, by decide, by decide, by decide, by decide⟩

/-- C14 (failing input). On a verified candidate, a request by the foundation
account with `verified = false` is rejected by `check.verifyCandidacy` with the
already-verified error. -/
theorem verifyCandidacy_unverify_rejected :
    check.verifyCandidacy ⟨foundationAddress, sampleParams⟩
        { CandidateAddress := 1, Verified := false } verifiedState
      = some (some Err.verifiedAlready, verifiedState) ∧
    CheckTx sampleEnv ⟨[foundationAddress]⟩
        (.verifyCandidacy { CandidateAddress := 1, Verified := false }) verifiedState
      = some (some Err.verifiedAlready, verifiedState) := by
  refine ⟨by decide, by decide⟩

/-- C15. When the target candidate exists and the single signer is not the
foundation account, `CheckTx` and `DeliverTx` of a VerifyCandidacy that passes
`ValidateBasic` both return the verification-disallowed error, whatever value
is requested, and the state, and with it the candidate's verified field, is
unchanged. -/
theorem verifyCandidacy_disallowed (env : Env) (ctx : Context) (t : TxVerifyCandidacy)
    (s : State) (sender : Address) (candidate : Candidate)
    (hv : env.validateBasic (.verifyCandidacy t) = none) (hs : ctx.signers = [sender])
    (hne : sender ≠ foundationAddress)
    (hc : s.candidates.find? (fun x => decide (x.OwnerAddress = t.CandidateAddress))
      = some candidate) :
    CheckTx env ctx (.verifyCandidacy t) s = some (some Err.verificationDisallowed, s) ∧
      DeliverTx env ctx (.verifyCandidacy t) s = some (some Err.verificationDisallowed, s) := by
  have hchk : CheckTx env ctx (.verifyCandidacy t) s
      = some (some Err.verificationDisallowed, s) := by
    rw [CheckTx_run env ctx _ s sender hv hs]
    simp only [check.verifyCandidacy, run_bind, run_GetCandidateByAddress, hc, ne_eq, hne,
      not_false_eq_true, if_true, run_pure]
  exact ⟨hchk, DeliverTx_of_CheckTx_error env ctx _ s _ hchk⟩

theorem verifyCandidacy_disallowed_witness :
    CheckTx sampleEnv ⟨[2]⟩ (.verifyCandidacy { CandidateAddress := 1, Verified := true })
        sampleState = some (some Err.verificationDisallowed, sampleState) ∧
      DeliverTx sampleEnv ⟨[2]⟩ (.verifyCandidacy { CandidateAddress := 1, Verified := true })
        sampleState = some (some Err.verificationDisallowed, sampleState) :=
  verifyCandidacy_disallowed sampleEnv ⟨[2]⟩ { CandidateAddress := 1, Verified := true }
    sampleState 2 sampleCandidate (by decide) rfl (by decide) (by decide)

/-- C17 (failing input). For a genesis validator at the zero address, and for
one at an address that already has a candidate, `setValidator` returns the
bad-address and the candidate-exists error and saves nothing, but `InitState`
with key "validator" returns no error. -/
theorem InitState_validator_drops_error :
    setValidator sampleEnv "zero" sampleState
        = some (some Err.badValidatorAddr, sampleState) ∧
      InitState sampleEnv "validator" "zero" sampleState = some (none, sampleState) ∧
      setValidator sampleEnv "one" sampleState
        = some (some Err.candidateExistsAddr, sampleState) ∧
      InitState sampleEnv "validator" "one" sampleState = some (none, sampleState) := by
  refine ⟨by decide, by decide, by decide, by decide⟩

/-- C18. `check.declareCandidacy` never returns success: when it returns, it
returns the address-declared error, the pubkey-declared error, or the
no-candidate error of the nested `check.delegate`, in the state it started in;
so neither `CheckTx` nor `DeliverTx` succeeds on a DeclareCandidacy. -/
theorem declareCandidacy_never_succeeds (env : Env) (ctx : Context) (c : check)
    (t : TxDeclareCandidacy) (s : State) :
    (c.declareCandidacy env t s = none ∨
      ∃ e, c.declareCandidacy env t s = some (some e, s) ∧
        ((e = Err.addressDeclared ∧
            (s.candidates.find? (fun x => decide (x.OwnerAddress = c.sender))).isSome) ∨
         (e = Err.pubkeyDeclared ∧
            (s.candidates.find? (fun x => decide (x.PubKey = t.PubKey))).isSome) ∨
         (e = Err.noCandidateForAddress ∧
            s.candidates.find? (fun x => decide (x.OwnerAddress = c.sender)) = none))) ∧
    (∀ s2, CheckTx env ctx (.declareCandidacy t) s ≠ some (none, s2)) ∧
    (∀ s2, DeliverTx env ctx (.declareCandidacy t) s ≠ some (none, s2)) := by
  have hcheck : ∀ s2, CheckTx env ctx (.declareCandidacy t) s ≠ some (none, s2) := by
    intro s2 h
    obtain ⟨hv, sender, hs⟩ := CheckTx_ok_inv env ctx _ s s2 h
    rw [CheckTx_run env ctx _ s sender hv hs] at h
    exact check.declareCandidacy_not_ok _ _ _ _ _ h
  refine ⟨?_, hcheck, ?_⟩
  · simp only [check.declareCandidacy, run_bind, run_GetCandidateByAddress]
    cases hc : s.candidates.find? (fun x => decide (x.OwnerAddress = c.sender)) with
    | some _ => exact Or.inr ⟨_, rfl, Or.inl ⟨rfl, rfl⟩⟩
    | none =>
      simp only [run_bind, run_GetCandidateByPubKey]
      cases hp : s.candidates.find? (fun x => decide (x.PubKey = t.PubKey)) with
      | some _ => exact Or.inr ⟨_, rfl, Or.inr (Or.inl ⟨rfl, rfl⟩)⟩
      | none =>
        cases hz : env.floatMulString t.MaxAmount c.params.ReserveRequirementRatio with
        | none => exact Or.inl rfl
        | some z =>
          refine Or.inr ⟨Err.noCandidateForAddress, ?_, Or.inr (Or.inr ⟨rfl, trivial⟩)⟩
          simp only []
          rw [check.delegate_result]
          simp only [hc]
  · intro s2 h
    exact hcheck s (DeliverTx_ok_inv env ctx _ s s2 h)

theorem scanDigits_isSome (cs : List Char) :
    ∀ acc, (scanDigits cs acc).isSome = cs.all Char.isDigit := by
  induction cs with
  | nil => intro acc; rfl
  | cons c cs ih =>
    intro acc
    by_cases h : c.isDigit = true
    · simp [scanDigits, h, ih]
    · simp [scanDigits, h]

theorem scanNat_isSome (cs : List Char) : (scanNat cs).isSome = isDecimalNumeral cs := by
  cases cs with
  | nil => rfl
  | cons c cs => simp [scanNat, isDecimalNumeral, scanDigits_isSome]

/-- `SetString(s, 10)` succeeds exactly on the strings that denote an integer in
base 10. -/
theorem bigIntSetString_isSome (s : String) :
    (bigIntSetString s).isSome = denotesInteger s := by
  unfold bigIntSetString denotesInteger
  split <;> (rw [← scanNat_isSome]; cases scanNat _ <;> rfl)

/-- C16 (amended). When the target candidate exists, `check.delegate` returns
the bad-amount error exactly on the amount strings that do not denote an
integer in base 10 (an optional sign, then digits), and accepts an amount
string only if it denotes one. -/
theorem check_delegate_badAmount_iff (c : check) (t : TxDelegate) (s : State)
    (candidate : Candidate)
    (hc : s.candidates.find? (fun x => decide (x.OwnerAddress = t.ValidatorAddress))
      = some candidate) :
    (c.delegate t s = some (some Err.badAmount, s) ↔ denotesInteger t.Amount = false) ∧
      (c.delegate t s = some (none, s) → denotesInteger t.Amount = true) := by
  rw [← bigIntSetString_isSome, check.delegate_result, hc]
  cases ha : bigIntSetString t.Amount with
  | none => simp
  | some amount =>
    by_cases hb : balanceOf s.balances c.sender < amount
    · simp [hb]
    · by_cases hm : candidate.Shares + amount > candidate.MaxShares
      · simp [hb, hm]
      · simp [hb, hm]

theorem check_delegate_badAmount_iff_witness :
    (check.delegate ⟨1, sampleParams⟩ { ValidatorAddress := 1, Amount := "1.5" } sampleState
        = some (some Err.badAmount, sampleState) ↔ denotesInteger "1.5" = false) ∧
      (check.delegate ⟨1, sampleParams⟩ { ValidatorAddress := 1, Amount := "1.5" } sampleState
        = some (none, sampleState) → denotesInteger "1.5" = true) :=
  check_delegate_badAmount_iff ⟨1, sampleParams⟩ { ValidatorAddress := 1, Amount := "1.5" }
    sampleState sampleCandidate (by decide)

/-- C16 (counterexample). The amount "-5" does not denote a non-negative
integer, yet `check.delegate` accepts it: it is not rejected with the
bad-amount error. -/
theorem check_delegate_accepts_negative :
    denotesNonNegative "-5" = false ∧ bigIntSetString "-5" = some (-5) ∧
      check.delegate ⟨1, sampleParams⟩ { ValidatorAddress := 1, Amount := "-5" } sampleState
        = some (none, sampleState) := by
  refine ⟨by decide, by decide, by decide⟩

theorem check.verifyCandidacy_ok_inv (c : check) (t : TxVerifyCandidacy) (s s1 : State)
    (h : c.verifyCandidacy t s = some (none, s1)) :
    ∃ candidate, s.candidates.find? (fun x => decide (x.OwnerAddress = t.CandidateAddress))
      = some candidate := by
  simp only [check.verifyCandidacy, run_bind, run_GetCandidateByAddress] at h
  cases hc : s.candidates.find? (fun x => decide (x.OwnerAddress = t.CandidateAddress)) with
  | none => simp [hc] at h
  | some candidate => exact ⟨candidate, rfl⟩

theorem check.withdraw_ok_inv (c : check) (t : TxWithdraw) (s s1 : State)
    (h : c.withdraw t s = some (none, s1)) :
    ∃ candidate delegation,
      s.candidates.find? (fun x => decide (x.OwnerAddress = t.ValidatorAddress))
        = some candidate ∧
      s.delegations.find? (fun x => x.hasKey c.sender t.ValidatorAddress)
        = some delegation := by
  rw [check.withdraw_result] at h
  cases hc : s.candidates.find? (fun x => decide (x.OwnerAddress = t.ValidatorAddress)) with
  | none => simp [hc] at h
  | some candidate =>
    cases hd : s.delegations.find? (fun x => x.hasKey c.sender t.ValidatorAddress) with
    | none => simp [hc, hd] at h
    | some delegation => exact ⟨candidate, delegation, rfl, rfl⟩

theorem deliver.withdraw_returns (env : Env) (d : deliver) (t : TxWithdraw) (s : State)
    (candidate : Candidate) (delegation : Delegation)
    (hc : s.candidates.find? (fun x => decide (x.OwnerAddress = t.ValidatorAddress))
      = some candidate)
    (hd : s.delegations.find? (fun x => x.hasKey d.sender t.ValidatorAddress)
      = some delegation) :
    ∃ r s2, d.withdraw env t s = some (r, s2) := by
  cases hw : d.withdraw env t s with
  | some p => exact ⟨p.1, p.2, rfl⟩
  | none =>
    exfalso
    simp only [deliver.withdraw, run_bind, run_GetCandidateByAddress, hc, run_GetDelegation,
      hd, run_RemoveDelegation] at hw
    split at hw <;>
      simp [run_bind, run_map, Transfer] at hw <;> split at hw <;> simp at hw

theorem deliver.verifyCandidacy_returns (env : Env) (d : deliver) (t : TxVerifyCandidacy)
    (s : State) (candidate : Candidate)
    (hc : s.candidates.find? (fun x => decide (x.OwnerAddress = t.CandidateAddress))
      = some candidate) :
    ∃ s2, d.verifyCandidacy env t s = some (none, s2) := by
  simp only [deliver.verifyCandidacy, run_bind, run_GetCandidateByAddress, hc,
    run_updateCandidate, run_pure]
  exact ⟨_, rfl⟩

/-- C19. On a Delegate, VerifyCandidacy or Withdraw that `CheckTx` accepts, the
records that the deliver handlers dereference without an absence check are
present in that state (the target candidate for Delegate and VerifyCandidacy,
the sender's delegation for Withdraw), and `DeliverTx` on that state returns:
the nil-dereference branch is not taken. -/
theorem accepted_lookups_present (env : Env) (ctx : Context) (tx : Tx) (s s1 : State)
    (h : CheckTx env ctx tx s = some (none, s1)) :
    (∀ t, tx = .delegate t →
      (s.candidates.find? (fun x => decide (x.OwnerAddress = t.ValidatorAddress))).isSome ∧
      ∃ r s2, DeliverTx env ctx tx s = some (r, s2)) ∧
    (∀ t, tx = .verifyCandidacy t →
      (s.candidates.find? (fun x => decide (x.OwnerAddress = t.CandidateAddress))).isSome ∧
      ∃ r s2, DeliverTx env ctx tx s = some (r, s2)) ∧
    (∀ t, tx = .withdraw t → ∃ sender, ctx.signers = [sender] ∧
      (s.delegations.find? (fun x => x.hasKey sender t.ValidatorAddress)).isSome ∧
      ∃ r s2, DeliverTx env ctx tx s = some (r, s2)) := by
  obtain ⟨hv, sender, hs⟩ := CheckTx_ok_inv env ctx tx s s1 h
  have hrun := DeliverTx_run env ctx tx s s1 sender h hs
  rw [CheckTx_run env ctx tx s sender hv hs] at h
  refine ⟨?_, ?_, ?_⟩
  · intro t ht
    subst ht
    obtain ⟨candidate, amount, hc, ha, hb, _⟩ := check.delegate_ok_inv _ t s s1 h
    have h2 := deliver.delegate_run env ⟨sender, s.params⟩ t s candidate amount hc ha hb
    exact ⟨by rw [hc]; rfl, none, _, by rw [hrun]; exact h2⟩
  · intro t ht
    subst ht
    obtain ⟨candidate, hc⟩ := check.verifyCandidacy_ok_inv _ t s s1 h
    obtain ⟨s2, h2⟩ := deliver.verifyCandidacy_returns env ⟨sender, s.params⟩ t s candidate hc
    exact ⟨by rw [hc]; rfl, none, s2, by rw [hrun]; exact h2⟩
  · intro t ht
    subst ht
    obtain ⟨candidate, delegation, hc, hd⟩ := check.withdraw_ok_inv _ t s s1 h
    obtain ⟨r, s2, h2⟩ :=
      deliver.withdraw_returns env ⟨sender, s.params⟩ t s candidate delegation hc hd
    exact ⟨sender, hs, by rw [hd]; rfl, r, s2, by rw [hrun]; exact h2⟩

theorem accepted_lookups_present_witness :
    CheckTx sampleEnv ⟨[1]⟩ (.withdraw { ValidatorAddress := 1 }) shortHoldState
        = some (none, shortHoldState) ∧
      ∃ sender, (⟨[1]⟩ : Context).signers = [sender] ∧
        (shortHoldState.delegations.find? (fun x => x.hasKey sender 1)).isSome ∧
        ∃ r s2, DeliverTx sampleEnv ⟨[1]⟩ (.withdraw { ValidatorAddress := 1 }) shortHoldState
          = some (r, s2) :=
  ⟨by decide,
   (accepted_lookups_present sampleEnv ⟨[1]⟩ (.withdraw { ValidatorAddress := 1 })
      shortHoldState shortHoldState (by decide)).2.2 { ValidatorAddress := 1 } rfl⟩

/-- C20. An UpdateCandidacy with the empty `MaxAmount` is accepted by
`check.updateCandidacy` for every sender that owns a candidate, without a
balance check, while in `deliver.updateCandidacy` the base-10 parse of that
`MaxAmount` yields no value and the comparison with the candidate's ceiling
dereferences it: `CheckTx` accepts and `DeliverTx` does not return. -/
theorem updateCandidacy_empty_maxAmount (env : Env) (ctx : Context)
    (t : TxUpdateCandidacy) (s : State) (sender : Address) (p : Params)
    (candidate : Candidate) (hm : t.MaxAmount = "")
    (hc : s.candidates.find? (fun x => decide (x.OwnerAddress = sender)) = some candidate) :
    check.updateCandidacy env ⟨sender, p⟩ t s = some (none, s) ∧
      bigIntSetString t.MaxAmount = none ∧
      deliver.updateCandidacy env ⟨sender, p⟩ t s = none ∧
      (env.validateBasic (.updateCandidacy t) = none → ctx.signers = [sender] →
        CheckTx env ctx (.updateCandidacy t) s = some (none, s) ∧
        DeliverTx env ctx (.updateCandidacy t) s = none) := by
  have hparse : bigIntSetString t.MaxAmount = none := by
    rw [hm]
    rfl
  have hcheck : ∀ p, check.updateCandidacy env ⟨sender, p⟩ t s = some (none, s) := by
    intro p
    simp only [check.updateCandidacy, run_bind, run_GetCandidateByAddress, hc, hm, ne_eq,
      not_true_eq_false, if_false, run_pure]
  have hdeliver : ∀ p, deliver.updateCandidacy env ⟨sender, p⟩ t s = none := by
    intro p
    simp only [deliver.updateCandidacy, run_bind, run_GetCandidateByAddress, hc, hparse,
      run_goPanic]
  refine ⟨hcheck p, hparse, hdeliver p, ?_⟩
  intro hv hs
  have hchk : CheckTx env ctx (.updateCandidacy t) s = some (none, s) := by
    rw [CheckTx_run env ctx _ s sender hv hs]
    exact hcheck _
  refine ⟨hchk, ?_⟩
  rw [DeliverTx_run env ctx _ s s sender hchk hs]
  exact hdeliver _

theorem updateCandidacy_empty_maxAmount_witness :
    CheckTx sampleEnv ⟨[1]⟩
        (.updateCandidacy { NewAddress := 1, MaxAmount := "", Cut := 0, Description := "" })
        sampleState = some (none, sampleState) ∧
      DeliverTx sampleEnv ⟨[1]⟩
        (.updateCandidacy { NewAddress := 1, MaxAmount := "", Cut := 0, Description := "" })
        sampleState = none :=
  (updateCandidacy_empty_maxAmount sampleEnv ⟨[1]⟩
    { NewAddress := 1, MaxAmount := "", Cut := 0, Description := "" } sampleState 1
    sampleParams sampleCandidate rfl (by decide)).2.2.2 (by decide) rfl

end Stake
